import Mathlib

/-!
Verification of the LD-masking pipeline (pairwise linkage-disequilibrium
ingestion, neighbor-graph construction and the masking strategies).

The Python sources are embedded shallowly:

* input lines are `String`s; `line.strip().split()` is modelled by `pySplit`,
  which splits on runs of whitespace and discards empty fields;
* Python `float(...)` on the R² column is modelled by `pyFloat`, returning a
  rational (`none` models the `ValueError` branch); finite decimal and
  scientific literals are covered, `inf`/`nan` and digit underscores are not
  (they do not occur in PLINK LD tables);
* Python string comparison (used by `sorted`) is code-point lexicographic and
  is modelled by `lexLeChars`/`strLeB`;
* `numpy` random draws are oracle parameters: every strategy is a pure
  function of its input and of the draw streams produced by the fixed seed;
* Python's stable `list.sort`/`sorted` is modelled by the stable insertion
  sort `sortStable`;
* fallible steps (`sklearn` fit on too few samples, `np.random.choice` with
  an oversized request, tuple unpacking of a row dictionary) are modelled
  with `Except`.
-/

/-! ## Character and string utilities -/

/-- Numeric value of a decimal digit character. -/
def digitVal (c : Char) : ℕ := c.toNat - '0'.toNat

/-- Decimal digit test, kernel-reducible. -/
def isDigitChar (c : Char) : Bool := '0'.toNat ≤ c.toNat && c.toNat ≤ '9'.toNat

/-- Code-point lexicographic `≤` on character lists: Python's string order. -/
def lexLeChars : List Char → List Char → Bool
  | [], _ => true
  | _ :: _, [] => false
  | a :: as, b :: bs =>
    if a.toNat < b.toNat then true
    else if b.toNat < a.toNat then false
    else lexLeChars as bs

/-- Code-point lexicographic `<` on character lists. -/
def lexLtChars : List Char → List Char → Bool
  | [], [] => false
  | [], _ :: _ => true
  | _ :: _, [] => false
  | a :: as, b :: bs =>
    if a.toNat < b.toNat then true
    else if b.toNat < a.toNat then false
    else lexLtChars as bs

/-- Python `s <= t` on strings. -/
def strLeB (a b : String) : Bool := lexLeChars a.data b.data

/-- Python `s < t` on strings. -/
def strLtB (a b : String) : Bool := lexLtChars a.data b.data

theorem lexLeChars_total (x y : List Char) :
    lexLeChars x y = true ∨ lexLeChars y x = true := by
  induction x generalizing y with
  | nil => left; rfl
  | cons a as ih =>
    cases y with
    | nil => right; rfl
    | cons b bs =>
      rcases Nat.lt_trichotomy a.toNat b.toNat with h | h | h
      · left; simp [lexLeChars, h]
      · have hba : ¬ b.toNat < a.toNat := by omega
        have hab : ¬ a.toNat < b.toNat := by omega
        rcases ih bs with h' | h'
        · left; simp [lexLeChars, hab, hba, h']
        · right; simp [lexLeChars, hab, hba, h']
      · right; simp [lexLeChars, h]

theorem lexLeChars_trans {x y z : List Char} (hxy : lexLeChars x y = true)
    (hyz : lexLeChars y z = true) : lexLeChars x z = true := by
  induction x generalizing y z with
  | nil => rfl
  | cons a as ih =>
    cases y with
    | nil => simp [lexLeChars] at hxy
    | cons b bs =>
      cases z with
      | nil => simp [lexLeChars] at hyz
      | cons c cs =>
        rcases Nat.lt_trichotomy a.toNat b.toNat with hab | hab | hab <;>
          rcases Nat.lt_trichotomy b.toNat c.toNat with hbc | hbc | hbc
        · simp [lexLeChars, show a.toNat < c.toNat by omega]
        · simp [lexLeChars, show a.toNat < c.toNat by omega]
        · simp [lexLeChars, hbc, show ¬ b.toNat < c.toNat by omega] at hyz
        · simp [lexLeChars, show a.toNat < c.toNat by omega]
        · simp only [lexLeChars, show ¬ a.toNat < b.toNat by omega,
            show ¬ b.toNat < a.toNat by omega, if_false, if_true] at hxy
          simp only [lexLeChars, show ¬ b.toNat < c.toNat by omega,
            show ¬ c.toNat < b.toNat by omega, if_false, if_true] at hyz
          simp only [lexLeChars, show ¬ a.toNat < c.toNat by omega,
            show ¬ c.toNat < a.toNat by omega, if_false, if_true]
          exact ih hxy hyz
        · simp [lexLeChars, hbc, show ¬ b.toNat < c.toNat by omega] at hyz
        · simp [lexLeChars, hab, show ¬ a.toNat < b.toNat by omega] at hxy
        · simp [lexLeChars, hab, show ¬ a.toNat < b.toNat by omega] at hxy
        · simp [lexLeChars, hab, show ¬ a.toNat < b.toNat by omega] at hxy

/-! ## Python `str.split()` (whitespace, empty fields dropped) -/

/-- Auxiliary splitter: `acc` holds the pending field in reverse. -/
def pySplitAux : List Char → List Char → List String
  | [], acc => if acc.isEmpty then [] else [String.mk acc.reverse]
  | c :: cs, acc =>
    if c.isWhitespace then
      if acc.isEmpty then pySplitAux cs []
      else String.mk acc.reverse :: pySplitAux cs []
    else pySplitAux cs (c :: acc)

/-- Python `line.strip().split()`: split on whitespace runs, no empty fields. -/
def pySplit (s : String) : List String := pySplitAux s.data []

/-- Split a string at `'_'` characters, keeping empty pieces
(Python `snp.split('_')`). -/
def splitUnderscoreAux : List Char → List Char → List String
  | [], acc => [String.mk acc.reverse]
  | c :: cs, acc =>
    if c = '_' then String.mk acc.reverse :: splitUnderscoreAux cs []
    else splitUnderscoreAux cs (c :: acc)

/-- Python `snp.split('_')`. -/
def splitUnderscore (s : String) : List String := splitUnderscoreAux s.data []

/-- Python f-string `f"{chr}_{pos}"`. -/
def snpKey (chr pos : String) : String := chr ++ "_" ++ pos

/-! ## Python `float` and `int` literals, and the graph-builder's R² regex -/

/-- Value of a digit run (most significant first). -/
def digitsVal (cs : List Char) : ℕ := cs.foldl (fun a c => a * 10 + digitVal c) 0

/-- Are all characters decimal digits? -/
def allDigits (cs : List Char) : Bool := cs.all isDigitChar

/-- Parse the exponent tail of a float literal: optional sign, ≥1 digit. -/
def parseExpChars : List Char → Option ℤ
  | [] => none
  | c :: ds =>
    if c = '+' then
      if !ds.isEmpty && allDigits ds then some (digitsVal ds) else none
    else if c = '-' then
      if !ds.isEmpty && allDigits ds then some (-(digitsVal ds : ℤ)) else none
    else if allDigits (c :: ds) then some (digitsVal (c :: ds)) else none

/-- Parse an unsigned mantissa `digits[.digits]` (at least one digit overall;
the part after `ip` starts with `'.'` whenever it is nonempty). -/
def parseMantissaChars (cs : List Char) : Option ℚ :=
  let ip := cs.takeWhile (fun c => c ≠ '.')
  let rest := cs.drop ip.length
  if rest.isEmpty then
    if !ip.isEmpty && allDigits ip then some (digitsVal ip : ℚ) else none
  else
    let fp := rest.tail
    if (!ip.isEmpty || !fp.isEmpty) && allDigits ip && allDigits fp then
      some ((digitsVal ip : ℚ) + (digitsVal fp : ℚ) / 10 ^ fp.length)
    else none

/-- Parse an unsigned float literal `mantissa[(e|E)exp]`. -/
def parseUnsignedFloat (cs : List Char) : Option ℚ :=
  let m := cs.takeWhile (fun c => c ≠ 'e' ∧ c ≠ 'E')
  let rest := cs.drop m.length
  if rest.isEmpty then parseMantissaChars m
  else
    (parseMantissaChars m).bind (fun v =>
      (parseExpChars rest.tail).map (fun e => v * (10 : ℚ) ^ e))

/-- Python `float(s)` on finite literals; `none` models `ValueError`. -/
def pyFloat (s : String) : Option ℚ :=
  match s.data with
  | [] => none
  | c :: cs =>
    if c = '+' then parseUnsignedFloat cs
    else if c = '-' then (parseUnsignedFloat cs).map Neg.neg
    else parseUnsignedFloat (c :: cs)

/-- Python `int(s)` on decimal literals; `none` models `ValueError`. -/
def pyInt (s : String) : Option ℤ :=
  match s.data with
  | [] => none
  | c :: cs =>
    if c = '+' then
      if !cs.isEmpty && allDigits cs then some (digitsVal cs) else none
    else if c = '-' then
      if !cs.isEmpty && allDigits cs then some (-(digitsVal cs : ℤ)) else none
    else if allDigits (c :: cs) then some (digitsVal (c :: cs)) else none

/-- The graph builder's validity regex `^\d+\.?\d*$` from
`LDGraphBuilder.build_pytorch_geometric_graph`: one or more digits, an
optional dot, then optional digits. Rejects signs, exponents and a leading
dot even where Python `float` would accept them. -/
def matchesR2Regex (s : String) : Bool :=
  let cs := s.data
  let ds := cs.takeWhile isDigitChar
  let rest := cs.drop ds.length
  !ds.isEmpty &&
    (rest.isEmpty ||
      (match rest with
       | '.' :: tl => allDigits tl
       | _ => false))

/-! ## Stable insertion sort (model of Python's stable `sorted`/`list.sort`) -/

/-- Insert `a` before the first element `b` with `le a b`; ties therefore keep
the earlier element first, as in Python's stable sort. -/
def insertStable (le : α → α → Bool) (a : α) : List α → List α
  | [] => [a]
  | b :: l => if le a b then a :: b :: l else b :: insertStable le a l

/-- Stable insertion sort: elements are inserted front-first into the sorted
tail, so equal keys keep their input order whenever `le` holds on ties. -/
def sortStable (le : α → α → Bool) : List α → List α
  | [] => []
  | a :: l => insertStable le a (sortStable le l)

theorem perm_insertStable (le : α → α → Bool) (a : α) (l : List α) :
    List.Perm (insertStable le a l) (a :: l) := by
  induction l with
  | nil => rfl
  | cons b l ih =>
    by_cases h : le a b
    · simp [insertStable, h]
    · simp only [insertStable, h, if_false]
      exact ((ih.cons b).trans (List.Perm.swap a b l))

theorem perm_sortStable (le : α → α → Bool) (l : List α) :
    List.Perm (sortStable le l) l := by
  induction l with
  | nil => rfl
  | cons a l ih =>
    exact (perm_insertStable le a (sortStable le l)).trans (ih.cons a)

theorem mem_sortStable {le : α → α → Bool} {l : List α} {x : α} :
    x ∈ sortStable le l ↔ x ∈ l :=
  (perm_sortStable le l).mem_iff

theorem pairwise_insertStable {le : α → α → Bool}
    (htot : ∀ x y, le x y = true ∨ le y x = true)
    (htrans : ∀ x y z, le x y = true → le y z = true → le x z = true)
    {a : α} {l : List α} (hl : l.Pairwise (le · · = true)) :
    (insertStable le a l).Pairwise (le · · = true) := by
  induction l with
  | nil => simp [insertStable]
  | cons b l ih =>
    rw [List.pairwise_cons] at hl
    obtain ⟨hb, hl⟩ := hl
    by_cases h : le a b
    · simp only [insertStable, h, if_true]
      refine List.Pairwise.cons ?_ (List.Pairwise.cons hb hl)
      intro x hx
      rcases List.mem_cons.mp hx with hxb | hxl
      · subst hxb; exact h
      · exact htrans a b x h (hb x hxl)
    · simp only [insertStable, h, if_false]
      have hba : le b a = true := (htot a b).resolve_left h
      refine List.Pairwise.cons ?_ (ih hl)
      intro x hx
      rcases List.mem_cons.mp ((perm_insertStable le a l).mem_iff.mp hx) with hxa | hxl
      · subst hxa; exact hba
      · exact hb x hxl

theorem pairwise_sortStable {le : α → α → Bool}
    (htot : ∀ x y, le x y = true ∨ le y x = true)
    (htrans : ∀ x y z, le x y = true → le y z = true → le x z = true)
    (l : List α) : (sortStable le l).Pairwise (le · · = true) := by
  induction l with
  | nil => simp [sortStable]
  | cons a l ih => exact pairwise_insertStable htot htrans ih

theorem filter_insertStable_pos {le : α → α → Bool} {p : α → Bool} {a : α}
    {l : List α} (ha : p a = true)
    (hstop : ∀ b ∈ l, le a b = false → p b = false) :
    (insertStable le a l).filter p = a :: l.filter p := by
  induction l with
  | nil => simp [insertStable, ha]
  | cons b l ih =>
    by_cases hb : le a b
    · simp [insertStable, hb, ha]
    · have hpb : p b = false := hstop b (List.mem_cons_self b l) (by simp [hb])
      have hrec := ih (fun c hc => hstop c (List.mem_cons_of_mem b hc))
      simp only [insertStable, hb, if_false, List.filter_cons, hpb,
        Bool.false_eq_true, if_false, hrec]

theorem filter_insertStable_neg {le : α → α → Bool} {p : α → Bool} {a : α}
    {l : List α} (ha : p a = false) :
    (insertStable le a l).filter p = l.filter p := by
  induction l with
  | nil => simp [insertStable, ha]
  | cons b l ih =>
    by_cases hb : le a b
    · simp [insertStable, hb, List.filter_cons, ha]
    · simp [insertStable, hb, List.filter_cons, ih]

/-- Stability of `sortStable`: elements sharing one key (picked out by `p`)
appear in the output in their input order, provided `le` always holds between
two elements of that key. -/
theorem filter_sortStable {le : α → α → Bool} {p : α → Bool}
    (hkey : ∀ x y, p x = true → p y = true → le x y = true)
    (l : List α) : (sortStable le l).filter p = l.filter p := by
  induction l with
  | nil => rfl
  | cons a l ih =>
    by_cases ha : p a
    · have h2 : ∀ b ∈ sortStable le l, le a b = false → p b = false := by
        intro b _ hab
        by_contra hpb
        have hpb' : p b = true := by revert hpb; cases p b <;> simp
        have := hkey a b ha hpb'
        simp [this] at hab
      simp only [sortStable, filter_insertStable_pos ha h2, ih,
        List.filter_cons, ha, if_true]
    · have ha' : p a = false := by revert ha; cases p a <;> simp
      simp only [sortStable, filter_insertStable_neg ha', ih,
        List.filter_cons, ha']
      simp

/-! ## Shared line filters of the LD readers -/

/-- Field access `parts[i]` (all call sites are guarded by a length test). -/
def field (parts : List String) (i : ℕ) : String := parts.getD i ""

/-- The shared guard `len(parts) >= 7 and parts[6] != 'R2'` used by every
reader (random, column-wise, row-wise collectors and `load_ld_data`). -/
def wellFormedLine (parts : List String) : Bool :=
  decide (7 ≤ parts.length) && (field parts 6 != "R2")

/-- Variant keys contributed by one line in the key-only collectors
(`random_masking.py` / `Column-wise_missingness.py` / `Row-wise_missingness.py`):
no R² parse or threshold test is applied there. -/
def lineKeys (line : String) : List String :=
  let parts := pySplit line
  if wellFormedLine parts then
    [snpKey (field parts 0) (field parts 1), snpKey (field parts 3) (field parts 4)]
  else []

/-- The retained-edge parse of `k-nearest_SNP_masking.py` (lines 43–55) and of
`MAF_n_Cluster.py` (lines 124–135): whitespace split, field-count/header
guard, `float(parts[6])` with `ValueError` skip, and the `r2 >= threshold`
test. Returns `(snp_a, snp_b, r2)`. -/
def parseEdge (θ : ℚ) (line : String) : Option (String × String × ℚ) :=
  let parts := pySplit line
  if wellFormedLine parts then
    match pyFloat (field parts 6) with
    | some v =>
      if θ ≤ v then
        some (snpKey (field parts 0) (field parts 1),
              snpKey (field parts 3) (field parts 4), v)
      else none
    | none => none
  else none

/-- Does the k-nearest / MAF reader keep this line? -/
def knnKeep (θ : ℚ) (line : String) : Bool := (parseEdge θ line).isSome

/-- The graph-builder per-row mask (graph_builder.py lines 71–74), meaningful
only on rows whose R² string casts to Float64: well-formed (`load_ld_data`
guard), R² matches `^\d+\.?\d*$`, and its numeric value (polars
`cast(pl.Float64)`, which agrees with `float()` on the strings it accepts,
both modelled by `pyFloat`) is at least the threshold. On a row whose R²
fails the cast this value is never observed by the program: the strict cast
raises first — see `gbFilter`, the authoritative batch-level embedding. -/
def gbKeep (θ : ℚ) (line : String) : Bool :=
  let parts := pySplit line
  wellFormedLine parts && matchesR2Regex (field parts 6) &&
    (match pyFloat (field parts 6) with
     | some v => decide (θ ≤ v)
     | none => false)

/-- `build_pytorch_geometric_graph`'s filtering pass over the rows kept by
`load_ld_data` (graph_builder.py lines 69–79). Both operands of the mask `&`
are evaluated over the whole batch, and `pl.col('R2').cast(pl.Float64)` is a
strict cast: if any well-formed row has a Float64-unparsable R² string the
cast raises `InvalidOperationError` and the build aborts; the regex mask does
not guard it. Otherwise a row is kept iff `gbKeep` holds. Batching
(`iter_slices`) only splits the column; some batch fails iff some row does,
so the filter is modelled over the whole list. -/
def gbFilter (θ : ℚ) (lines : List String) : Except String (List String) :=
  let rows := lines.filter (fun l => wellFormedLine (pySplit l))
  if rows.all (fun l => (pyFloat (field (pySplit l) 6)).isSome) then
    .ok (rows.filter (fun l => gbKeep θ l))
  else .error "InvalidOperationError: conversion from str to f64 failed in column R2"

/-! ## `sorted(list(set(...)))` over variant keys -/

/-- Python `sorted` on strings (stable, code-point lexicographic). -/
def sortStrings (l : List String) : List String := sortStable strLeB l

/-- `sorted(list(set(l)))`: deduplicate, then sort ascending. -/
def sortedUnique (l : List String) : List String := sortStrings l.dedup

theorem char_eq_of_toNat_eq {a b : Char} (h : a.toNat = b.toNat) : a = b := by
  cases a; cases b
  simp only [Char.toNat] at h
  congr 1
  exact UInt32.toNat.inj h

theorem lexLtChars_of_le_of_ne {x y : List Char}
    (h : lexLeChars x y = true) (hne : x ≠ y) : lexLtChars x y = true := by
  induction x generalizing y with
  | nil =>
    cases y with
    | nil => exact absurd rfl hne
    | cons b bs => rfl
  | cons a as ih =>
    cases y with
    | nil => simp [lexLeChars] at h
    | cons b bs =>
      rcases Nat.lt_trichotomy a.toNat b.toNat with hab | hab | hab
      · simp [lexLtChars, hab]
      · have hb : a = b := char_eq_of_toNat_eq hab
        subst hb
        simp only [lexLeChars, lt_irrefl, if_false, if_true] at h
        have htail : as ≠ bs := fun hh => hne (by rw [hh])
        simp only [lexLtChars, lt_irrefl, if_false, if_true]
        exact ih h htail
      · simp [lexLeChars, hab, show ¬ a.toNat < b.toNat by omega] at h

theorem strLeB_total (a b : String) : strLeB a b = true ∨ strLeB b a = true :=
  lexLeChars_total a.data b.data

theorem strLeB_trans {a b c : String} (h1 : strLeB a b = true)
    (h2 : strLeB b c = true) : strLeB a c = true :=
  lexLeChars_trans h1 h2

theorem str_eq_of_data_eq {a b : String} (h : a.data = b.data) : a = b := by
  cases a; cases b
  exact congrArg String.mk h

theorem strLtB_of_le_of_ne {a b : String} (h : strLeB a b = true)
    (hne : a ≠ b) : strLtB a b = true :=
  lexLtChars_of_le_of_ne h (fun hd => hne (str_eq_of_data_eq hd))

theorem mem_sortedUnique {l : List String} {x : String} :
    x ∈ sortedUnique l ↔ x ∈ l := by
  unfold sortedUnique sortStrings
  rw [mem_sortStable, List.mem_dedup]

theorem nodup_sortedUnique (l : List String) : (sortedUnique l).Nodup :=
  ((perm_sortStable strLeB l.dedup).nodup_iff).mpr (List.nodup_dedup l)

/-- The key list produced by `sorted(list(set(keys)))` is strictly ascending
in Python's string order. -/
theorem sortedUnique_strict_sorted (l : List String) :
    (sortedUnique l).Pairwise (fun a b => strLtB a b = true) := by
  have hle : (sortedUnique l).Pairwise (fun a b => strLeB a b = true) :=
    pairwise_sortStable strLeB_total (fun _ _ _ => strLeB_trans) l.dedup
  have hne : (sortedUnique l).Pairwise (· ≠ ·) := nodup_sortedUnique l
  exact (hle.and hne).imp (fun h => strLtB_of_le_of_ne h.1 h.2)

/-! ## The k-nearest neighbor graph (`k-nearest_SNP_masking.py`) -/

/-- A `defaultdict(list)` keyed by SNP key. -/
def NeighborMap : Type := String → List (String × ℚ)

/-- The empty `defaultdict(list)`. -/
def emptyNeighbors : NeighborMap := fun _ => []

/-- `snp_neighbors[s].append(p)`. -/
def appendNeighbor (g : NeighborMap) (s : String) (p : String × ℚ) : NeighborMap :=
  fun t => if t = s then g t ++ [p] else g t

/-- Lines 51–52 of the source: append `(b, r2)` to `a`'s list, then `(a, r2)`
to `b`'s list. -/
def insertEdge (g : NeighborMap) (e : String × String × ℚ) : NeighborMap :=
  appendNeighbor (appendNeighbor g e.1 (e.2.1, e.2.2)) e.2.1 (e.1, e.2.2)

/-- The unsorted neighbor lists after the reading loop. -/
def buildNeighborGraph (edges : List (String × String × ℚ)) : NeighborMap :=
  edges.foldl insertEdge emptyNeighbors

/-- `snp_neighbors[snp].sort(key=lambda x: x[1], reverse=True)`: Python's
stable sort by descending R². -/
def sortNeighbors (l : List (String × ℚ)) : List (String × ℚ) :=
  sortStable (fun p q => decide (q.2 ≤ p.2)) l

/-- The retained edges of the k-nearest reader, in input order. -/
def knnEdges (θ : ℚ) (lines : List String) : List (String × String × ℚ) :=
  lines.filterMap (parseEdge θ)

/-- The neighbor graph of `KNearestSNPMasking.create_mask_from_ld` after the
sorting pass (lines 24–59). -/
def snp_neighbors (θ : ℚ) (lines : List String) : NeighborMap :=
  fun s => sortNeighbors (buildNeighborGraph (knnEdges θ lines) s)

theorem mem_appendNeighbor_of_mem {g : NeighborMap} {s t : String}
    {p q : String × ℚ} (h : q ∈ g t) : q ∈ appendNeighbor g s p t := by
  unfold appendNeighbor
  by_cases hts : t = s
  · subst hts; simp [h]
  · simpa [hts] using h

theorem mem_insertEdge_of_mem {g : NeighborMap} {e : String × String × ℚ}
    {t : String} {q : String × ℚ} (h : q ∈ g t) : q ∈ insertEdge g e t :=
  mem_appendNeighbor_of_mem (mem_appendNeighbor_of_mem h)

theorem mem_insertEdge_fst (g : NeighborMap) (e : String × String × ℚ) :
    (e.2.1, e.2.2) ∈ insertEdge g e e.1 :=
  mem_appendNeighbor_of_mem (by unfold appendNeighbor; simp)

theorem mem_insertEdge_snd (g : NeighborMap) (e : String × String × ℚ) :
    (e.1, e.2.2) ∈ insertEdge g e e.2.1 := by
  unfold insertEdge appendNeighbor
  simp

theorem mem_foldl_insertEdge_of_mem {edges : List (String × String × ℚ)}
    {g : NeighborMap} {t : String} {q : String × ℚ} (h : q ∈ g t) :
    q ∈ edges.foldl insertEdge g t := by
  induction edges generalizing g with
  | nil => exact h
  | cons e es ih => exact ih (mem_insertEdge_of_mem h)

theorem foldl_insertEdge_mem {edges : List (String × String × ℚ)}
    {e : String × String × ℚ} (he : e ∈ edges) (g : NeighborMap) :
    (e.2.1, e.2.2) ∈ edges.foldl insertEdge g e.1 ∧
      (e.1, e.2.2) ∈ edges.foldl insertEdge g e.2.1 := by
  induction edges generalizing g with
  | nil => cases he
  | cons e' es ih =>
    rcases List.mem_cons.mp he with rfl | hmem
    · simp only [List.foldl_cons]
      exact ⟨mem_foldl_insertEdge_of_mem (mem_insertEdge_fst _ _),
        mem_foldl_insertEdge_of_mem (mem_insertEdge_snd _ _)⟩
    · simp only [List.foldl_cons]
      exact ih hmem _

/-- Every processed edge leaves both of its endpoint entries in the final
unsorted graph. -/
theorem buildNeighborGraph_mem {edges : List (String × String × ℚ)}
    {e : String × String × ℚ} (he : e ∈ edges) :
    (e.2.1, e.2.2) ∈ buildNeighborGraph edges e.1 ∧
      (e.1, e.2.2) ∈ buildNeighborGraph edges e.2.1 :=
  foldl_insertEdge_mem he emptyNeighbors

theorem countP_appendNeighbor (g : NeighborMap) (s : String) (p : String × ℚ)
    (t : String) (pr : String × ℚ → Bool) :
    ((appendNeighbor g s p) t).countP pr
      = (g t).countP pr + (if t = s ∧ pr p = true then 1 else 0) := by
  unfold appendNeighbor
  by_cases hts : t = s
  · subst hts
    simp only [if_pos rfl, List.countP_append, List.countP_cons, List.countP_nil]
    by_cases hp : pr p = true
    · simp [hp]
    · simp [hp]
  · simp [hts]

theorem countP_insertEdge (g : NeighborMap) (e : String × String × ℚ)
    {a b : String} (hab : a ≠ b) :
    ((insertEdge g e) a).countP (fun q => q.1 == b)
      = (g a).countP (fun q => q.1 == b) +
        (if (e.1 = a ∧ e.2.1 = b) ∨ (e.1 = b ∧ e.2.1 = a) then 1 else 0) := by
  obtain ⟨x, y, v⟩ := e
  unfold insertEdge appendNeighbor
  simp only
  by_cases h1 : a = x <;> by_cases h2 : a = y
  · subst h1; subst h2
    have hyb : (a == b) = false := by simp [hab]
    simp [List.countP_append, List.countP_cons, hyb, hab]
  · subst h1
    by_cases h3 : y = b
    · subst h3
      simp [h2, List.countP_append, List.countP_cons, hab]
    · have hyb : (y == b) = false := by simp [h3]
      simp [h2, List.countP_append, List.countP_cons, hyb, h3,
        fun h : a = b => hab h]
  · subst h2
    by_cases h3 : x = b
    · subst h3
      simp [h1, List.countP_append, List.countP_cons]
    · have hxb : (x == b) = false := by simp [h3]
      simp [h1, List.countP_append, List.countP_cons, hxb, h3]
      exact fun h => (h1 h.symm).elim
  · simp [h1, h2]
    exact ⟨fun h => (h1 h.symm).elim, fun _ h => h2 h.symm⟩

theorem countP_foldl_insertEdge (edges : List (String × String × ℚ))
    (g : NeighborMap) {a b : String} (hab : a ≠ b) :
    ((edges.foldl insertEdge g) a).countP (fun q => q.1 == b)
      = (g a).countP (fun q => q.1 == b) +
        edges.countP (fun e =>
          (e.1 == a && e.2.1 == b) || (e.1 == b && e.2.1 == a)) := by
  induction edges generalizing g with
  | nil => simp
  | cons e es ih =>
    simp only [List.foldl_cons, List.countP_cons]
    rw [ih (insertEdge g e), countP_insertEdge g e hab]
    have hiff : ((e.1 == a && e.2.1 == b) || (e.1 == b && e.2.1 == a)) = true
        ↔ (e.1 = a ∧ e.2.1 = b) ∨ (e.1 = b ∧ e.2.1 = a) := by
      simp
    by_cases hc : (e.1 = a ∧ e.2.1 = b) ∨ (e.1 = b ∧ e.2.1 = a)
    · rw [if_pos hc, if_pos (hiff.mpr hc)]
      omega
    · rw [if_neg hc, if_neg (fun hcc => hc (hiff.mp hcc))]
      omega

/-- Multiplicity of neighbor key `b` in `a`'s final (sorted) neighbor list:
one occurrence per retained input edge naming the pair in either
orientation. Duplicated orientations are therefore kept, not merged. -/
theorem snp_neighbors_count (θ : ℚ) (lines : List String) {a b : String}
    (hab : a ≠ b) :
    ((snp_neighbors θ lines) a).countP (fun q => q.1 == b)
      = (knnEdges θ lines).countP (fun e =>
          (e.1 == a && e.2.1 == b) || (e.1 == b && e.2.1 == a)) := by
  unfold snp_neighbors sortNeighbors
  rw [(perm_sortStable _ _).countP_eq]
  have h := countP_foldl_insertEdge (knnEdges θ lines) emptyNeighbors hab
  simpa [buildNeighborGraph, emptyNeighbors] using h

theorem mem_sortNeighbors {l : List (String × ℚ)} {q : String × ℚ} :
    q ∈ sortNeighbors l ↔ q ∈ l :=
  (perm_sortStable _ l).mem_iff

/-- Sorted neighbor lists are non-increasing in R². -/
theorem sortNeighbors_sorted (l : List (String × ℚ)) :
    (sortNeighbors l).Pairwise (fun p q => q.2 ≤ p.2) := by
  have h := @pairwise_sortStable _ (fun p q : String × ℚ => decide (q.2 ≤ p.2))
    (fun x y => by rcases le_total y.2 x.2 with h | h <;> simp [h])
    (fun x y z hxy hyz => by
      simp only [decide_eq_true_iff] at hxy hyz ⊢
      exact hyz.trans hxy)
    l
  exact h.imp (fun hxy => by simpa using hxy)

/-- Stability of the neighbor sort: entries tied at one R² value keep their
insertion order. -/
theorem sortNeighbors_stable (l : List (String × ℚ)) (c : ℚ) :
    (sortNeighbors l).filter (fun q => q.2 == c) = l.filter (fun q => q.2 == c) :=
  filter_sortStable
    (fun x y hx hy => by
      have hx' : x.2 = c := by simpa using hx
      have hy' : y.2 = c := by simpa using hy
      simp [hx', hy'])
    l

/-! ## Shared numeric helpers of the strategies -/

/-- Python `int(q)` on the non-negative values produced by the call sites
(`int(n * missing_rate)` etc.): truncation = floor there. -/
def pyIntTrunc (q : ℚ) : ℕ := (⌊q⌋).toNat

/-- Oracle for `np.random.choice(pool, size=m, replace=False)` (and for
`np.random.shuffle`-style draws): the value is fully determined by the fixed
seed, so it enters the embedding as a function parameter. -/
def PickFn (α : Type) : Type := List α → ℕ → List α

/-- `snp.split('_')[0]`. -/
def chrOf (snp : String) : String := field (splitUnderscore snp) 0

/-- `snp.split('_')[1]`. -/
def posOf (snp : String) : String := field (splitUnderscore snp) 1

/-- `np.mean` (population mean; Lean's `x / 0 = 0` stands in for the `nan`
of an empty mean, which no claim exercises). -/
def listMean (l : List ℚ) : ℚ := l.sum / l.length

/-- `np.var` (population variance). -/
def listVar (l : List ℚ) : ℚ := ((l.map (fun x => (x - listMean l) ^ 2)).sum) / l.length

/-! ## Column-wise missingness (`Column-wise_missingness.py`) -/

/-- One output row of the column-wise mask table. -/
structure CwRow where
  chr : String
  pos : String
  snpId : String
  masked : Bool
deriving DecidableEq

namespace ColumnwiseMissingness

/-- `ColumnwiseMissingness.create_mask_from_ld`: collect unique keys from all
well-formed lines (no R² filter), sort them, mask `int(n * missing_rate)`
keys chosen by the seeded RNG, and emit one row per key in sorted order. -/
def create_mask_from_ld (missing_rate : ℚ) (pick : PickFn String)
    (lines : List String) : List CwRow :=
  let snp_list := sortedUnique (lines.flatMap lineKeys)
  let n_mask := pyIntTrunc ((snp_list.length : ℚ) * missing_rate)
  let masked_snps := pick snp_list n_mask
  snp_list.map (fun snp =>
    ⟨chrOf snp, posOf snp, snp, decide (snp ∈ masked_snps)⟩)

end ColumnwiseMissingness

/-! ## Random multi-stage masking (`random_masking.py`) -/

/-- One output row of the random-mask table. -/
structure RandomRow where
  chr : String
  pos : String
  snpId : String
  masked : Bool
  stage1 : ℚ
  stage2 : ℚ
  stage3 : ℚ
  qms : ℚ
deriving DecidableEq

namespace RandomMasking

/-- `generate_random_masks`: three draw arrays over the SNP index space from
one seeded stream (`stream j i` is draw `i` of stage `j`). -/
def generate_random_masks (stream : ℕ → ℕ → ℚ) (n_snps : ℕ) : List (List ℚ) :=
  (List.range 3).map (fun j => (List.range n_snps).map (stream j))

/-- `np.argsort(scores)` (ascending; ties resolved by index order, which the
claims never depend on). -/
def argsortAsc (scores : List ℚ) : List ℕ :=
  sortStable (fun i j => decide (scores.getD i 0 ≤ scores.getD j 0))
    (List.range scores.length)

/-- `np.argsort(primary_mask)[:n_to_mask]`. -/
def primary_indices (scores : List ℚ) (t : ℕ) : List ℕ := (argsortAsc scores).take t

/-- `secondary_mask[primary_indices]`. -/
def secondary_selection (primary : List ℕ) (s2 : List ℚ) : List ℚ :=
  primary.map (fun i => s2.getD i 0)

/-- The stage-2 loop: keep `idx` iff
`secondary_selection[np.where(primary_indices == idx)[0][0]] > 0.3`. -/
def stage2_keep (primary : List ℕ) (s2 : List ℚ) : List ℕ :=
  primary.filter (fun idx =>
    decide ((3 : ℚ)/10 < (secondary_selection primary s2).getD (primary.indexOf idx) 0))

/-- `apply_structured_masking` (lines 29–65): stage-1 argsort prefix, stage-2
filter, stage-3 backfill from the unselected pool. The Python `set` of kept
indices is represented as a duplicate-free list. -/
def apply_structured_masking (missing_rate : ℚ) (pick : PickFn ℕ)
    (snpCount : ℕ) (s1 s2 : List ℚ) : List ℕ :=
  let t := pyIntTrunc ((snpCount : ℚ) * missing_rate)
  let primary := primary_indices s1 t
  let kept := stage2_keep primary s2
  let remaining := t - kept.length
  if 0 < remaining then
    let pool := (List.range snpCount).filter (fun i => decide (i ∉ kept))
    if pool ≠ [] then kept ++ pick pool (min remaining pool.length) else kept
  else kept

/-- `quantify_masking_strength` (lines 67–94); `none` models the
`ValueError` of `int(...)` on a non-numeric position field. -/
def quantify_masking_strength (original_snps : List String)
    (masked_indices : List ℕ) : Option ℚ :=
  match original_snps.mapM (fun snp => pyInt (posOf snp)) with
  | none => none
  | some positions =>
    let masked_positions := masked_indices.map (fun i => positions.getD i 0)
    if masked_positions.length < 2 then some 0
    else
      let sorted_masked := sortStable (fun x y : ℤ => decide (x ≤ y)) masked_positions
      let sp := (sorted_masked.zip sorted_masked.tail).map (fun p => ((p.2 - p.1 : ℤ) : ℚ))
      let uniformity :=
        if sp.length = 0 then 1
        else
          let m := listMean sp
          let v := if 0 < m then listVar sp else 0
          1 / (1 + v / (m ^ 2 + 1/10^10))
      some (((masked_indices.length : ℚ) / (original_snps.length : ℚ)) * uniformity)

/-- `RandomMasking.create_mask_from_ld` (lines 96–174). -/
def create_mask_from_ld (missing_rate : ℚ) (stream : ℕ → ℕ → ℚ)
    (pick : PickFn ℕ) (lines : List String) : Except String (List RandomRow) :=
  let snp_list := sortedUnique (lines.flatMap lineKeys)
  let mask_sets := generate_random_masks stream snp_list.length
  let s1 := mask_sets.getD 0 []
  let s2 := mask_sets.getD 1 []
  let s3 := mask_sets.getD 2 []
  let masked_indices := apply_structured_masking missing_rate pick snp_list.length s1 s2
  match quantify_masking_strength snp_list masked_indices with
  | none => .error "invalid literal for int() with base 10"
  | some qms =>
    .ok ((List.range snp_list.length).map (fun i =>
      let snp := snp_list.getD i ""
      ⟨chrOf snp, posOf snp, snp, decide (i ∈ masked_indices),
        s1.getD i 0, s2.getD i 0, s3.getD i 0, qms⟩))

end RandomMasking

/-! ## k-nearest SNP masking (`k-nearest_SNP_masking.py`) -/

/-- One output row of the k-nearest mask table. -/
structure KnnRow where
  chr : String
  pos : String
  snpId : String
  masked : Bool
  seed : Bool
  nNeighbors : ℕ
deriving DecidableEq

namespace KNearestSNPMasking

/-- Keys collected by the k-nearest reader (`unique_snps.update` only runs
for retained edges). -/
def knnKeys (θ : ℚ) (lines : List String) : List String :=
  (knnEdges θ lines).flatMap (fun e => [e.1, e.2.1])

/-- The seed loop (lines 71–80): the masked `set` holds each seed plus the
first `k` entries of its sorted neighbor list. -/
def masked_set (graph : NeighborMap) (seeds : List String) (k : ℕ) : List String :=
  seeds.foldl (fun acc seed =>
    (acc ++ [seed]) ++ ((graph seed).take k).map Prod.fst) []

/-- The mask table built at lines 84–102 and written to disk by
`mask_df.write_csv` at line 105 (one row per sorted unique key). -/
def mask_df (k : ℕ) (missing_rate θ : ℚ) (pick : PickFn String)
    (lines : List String) : List KnnRow :=
  let graph := snp_neighbors θ lines
  let snp_list := sortedUnique (knnKeys θ lines)
  let n_seeds := pyIntTrunc ((snp_list.length : ℚ) * missing_rate)
  let seed_snps := pick snp_list n_seeds
  let masked_snps := masked_set graph seed_snps k
  snp_list.map (fun snp =>
    ⟨chrOf snp, posOf snp, snp, decide (snp ∈ masked_snps),
      decide (snp ∈ seed_snps), (graph snp).length⟩)

/-- `KNearestSNPMasking.create_mask_from_ld` (lines 19–113). The CSV table is
written at line 105, but the summary print at line 111 then computes
`len(masked_snps)/len(snp_list)*100`; when no edge passed the threshold
`snp_list` is empty and the division raises `ZeroDivisionError`, so the call
never returns (the written table, `mask_df`, has zero data rows there). -/
def create_mask_from_ld (k : ℕ) (missing_rate θ : ℚ) (pick : PickFn String)
    (lines : List String) : Except String (List KnnRow) :=
  if (sortedUnique (knnKeys θ lines)).isEmpty then
    .error "ZeroDivisionError: division by zero"
  else .ok (mask_df k missing_rate θ pick lines)

end KNearestSNPMasking

/-! ## MAF + cluster masking (`MAF_n_Cluster.py`) -/

/-- One output row of the MAF+cluster mask table. -/
structure MafRow where
  chr : String
  pos : String
  snpId : String
  masked : Bool
  maf : ℚ
  isRare : Bool
  clusterId : ℤ
deriving DecidableEq

/-- One retained LD row (`parts[:7]`, kept as strings, like the polars
chunks of `MAF_n_Cluster.create_mask_from_ld`). -/
structure LdRow where
  chrA : String
  bpA : String
  snpA : String
  chrB : String
  bpB : String
  snpB : String
  r2 : String
deriving DecidableEq

namespace MAFClusterMasking

/-- The retained-row parse of MAF_n_Cluster.py lines 124–135. -/
def ldRowOfLine (θ : ℚ) (line : String) : Option LdRow :=
  let parts := pySplit line
  if wellFormedLine parts then
    match pyFloat (field parts 6) with
    | some v =>
      if θ ≤ v then
        some ⟨field parts 0, field parts 1, field parts 2,
              field parts 3, field parts 4, field parts 5, field parts 6⟩
      else none
    | none => none
  else none

/-- The concatenated retained rows (`ld_data`). -/
def ld_data (θ : ℚ) (lines : List String) : List LdRow :=
  lines.filterMap (ldRowOfLine θ)

/-- Oracle for the Markov-chain draws of `simulate_maf`: `initState` models
`np.random.choice([0,1], p=[0.3,0.7])`, `nextState i s` the transition draw at
step `i` from state `s`, and `betaDraw i` the Beta emission draw of step `i`
(`Beta(1,20)` when rare, `Beta(2,2)` when common; both have support `[0,1]`). -/
structure MafRng where
  initState : ℕ
  nextState : ℕ → ℕ → ℕ
  betaDraw : ℕ → ℚ

/-- The Markov state sequence: `states = [init]`, then one transition per
`i in range(1, n_snps)`. (For `n_snps = 0` the source still emits the single
initial state — the quirk is kept.) -/
def maf_states (rng : MafRng) (n_snps : ℕ) : List ℕ :=
  (List.range' 1 (n_snps - 1)).foldl
    (fun states i => states ++ [rng.nextState i (states.getLastD 0)])
    [rng.initState]

/-- State-to-MAF emission: the rare state emits the Beta(1,20) draw, the
common state emits the Beta(2,2) draw times `0.5`, and every emission is
capped at `0.5`. -/
def maf_value (state : ℕ) (draw : ℚ) : ℚ :=
  if state = 0 then min draw (1/2) else min (draw * (1/2)) (1/2)

/-- `simulate_maf` (lines 25–55). -/
def simulate_maf (rng : MafRng) (n_snps : ℕ) : List ℚ :=
  (maf_states rng n_snps).mapIdx (fun i s => maf_value s (rng.betaDraw i))

/-- Oracle for `AgglomerativeClustering(...).fit_predict`: given the sample
count and requested cluster count, a label per index. -/
def ClusterFn : Type := ℕ → ℕ → ℕ → ℕ

/-- `create_ld_clusters` (lines 57–98). The loop
`for _, row in ld_data.iter_rows(named=True)` unpacks each 7-key row
dictionary into two names, which raises `ValueError` on the first row, so the
matrix-filling loop only completes when `ld_data` is empty; and `sklearn`
raises when `n_clusters = max(2, n//10)` exceeds the number of samples
(in particular on 0 or 1 samples). Successful labellings come from the
oracle `fit`; clusters are grouped by first-occurrence label order and
filtered by `cluster_size_min`. -/
def create_ld_clusters (cluster_size_min : ℕ) (fit : ClusterFn)
    (rows : List LdRow) (snp_positions : List String) :
    Except String (List (ℕ × List String)) :=
  match rows with
  | _ :: _ => .error "too many values to unpack (expected 2)"
  | [] =>
    let n_snps := snp_positions.length
    let n_clusters := max 2 (n_snps / 10)
    if n_snps < n_clusters then .error "Cannot extract more clusters than samples"
    else
      let labels := (List.range n_snps).map (fit n_snps n_clusters)
      let clusters := labels.eraseDups.map (fun lab =>
        (lab, ((List.range n_snps).filter (fun i => labels.getD i 0 = lab)).map
          (fun i => snp_positions.getD i "")))
      .ok (clusters.filter (fun c => cluster_size_min ≤ c.2.length))

/-- The mask-row loop of lines 183–199: one row per key of `snp_positions`,
in order, with MAF, rare flag and cluster id (`-1` without a valid cluster). -/
def mafRowsOf (maf_threshold : ℚ) (snp_positions : List String)
    (maf_values : List ℚ) (masked_snps : List String)
    (clusters : List (ℕ × List String)) : List MafRow :=
  (List.range snp_positions.length).map (fun i =>
    let snp := snp_positions.getD i ""
    let maf_val := maf_values.getD i 0
    ⟨chrOf snp, posOf snp, snp, decide (snp ∈ masked_snps), maf_val,
      decide (maf_val < maf_threshold),
      match clusters.find? (fun c => decide (snp ∈ c.2)) with
      | some c => (c.1 : ℤ)
      | none => -1⟩)

/-- `MAFClusterMasking.create_mask_from_ld` (lines 100–216). -/
def create_mask_from_ld (maf_threshold missing_rate θ : ℚ)
    (cluster_size_min : ℕ) (rng : MafRng) (fit : ClusterFn)
    (pickRare : PickFn String) (pickCluster : PickFn ℕ)
    (lines : List String) : Except String (List MafRow) :=
  let rows := ld_data θ lines
  let snp_positions := sortedUnique (KNearestSNPMasking.knnKeys θ lines)
  let maf_values := simulate_maf rng snp_positions.length
  match create_ld_clusters cluster_size_min fit rows snp_positions with
  | .error e => .error e
  | .ok clusters =>
    let rare_snps := (List.range snp_positions.length).filterMap (fun i =>
      if maf_values.getD i 0 < maf_threshold then some (snp_positions.getD i "")
      else none)
    let n_maf_mask := pyIntTrunc ((rare_snps.length : ℚ) * missing_rate * 2)
    let maf_masked :=
      if rare_snps ≠ [] then pickRare rare_snps (min n_maf_mask rare_snps.length)
      else []
    let cluster_list := clusters.map Prod.snd
    let n_clusters_to_mask := max 1 (pyIntTrunc ((cluster_list.length : ℚ) * missing_rate))
    if cluster_list.length < n_clusters_to_mask then
      .error "Cannot take a larger sample than population when replace is False"
    else
      let selected := pickCluster (List.range cluster_list.length) n_clusters_to_mask
      let masked_snps := maf_masked ++ selected.flatMap (fun i => cluster_list.getD i [])
      .ok (mafRowsOf maf_threshold snp_positions maf_values masked_snps clusters)

end MAFClusterMasking

/-! ## Row-wise missingness (`Row-wise_missingness.py`) -/

/-- One output row of the row-wise (per-sample) mask table. -/
structure RowwiseRow where
  sampleId : String
  nTotal : ℕ
  nMissing : ℕ
  missPct : ℚ
  category : String
  highMiss : Bool
  patternType : String
deriving DecidableEq

/-- Oracles for the seeded draws of the row-wise simulator: genotype draws,
the category shuffle, the per-sample uniform draw (in `[0,1)`), and the
missing-index choice (`sample, population, size ↦ indices`). -/
structure RowwiseRng where
  geno : ℕ → ℕ → ℤ
  shuffleCats : List String → List String
  uniformDraw : ℕ → ℚ
  pickIdx : ℕ → ℕ → ℕ → List ℕ

namespace RowwiseMissingness

/-- Python `f"SAMPLE_{i:04d}"`. -/
def pad4 (i : ℕ) : String :=
  let s := toString i
  String.mk (List.replicate (4 - s.length) '0' ++ s.data)

/-- The synthetic sample ids. -/
def sample_ids (n_samples : ℕ) : List String :=
  (List.range n_samples).map (fun i => "SAMPLE_" ++ pad4 i)

/-- The pre-shuffle severity tiers: `int(n*0.7)` low, `int(n*0.2)` medium,
remainder high. -/
def sample_categories (n_samples : ℕ) : List String :=
  let n_low := pyIntTrunc ((n_samples : ℚ) * (7/10))
  let n_medium := pyIntTrunc ((n_samples : ℚ) * (2/10))
  let n_high := n_samples - n_low - n_medium
  List.replicate n_low "low" ++ List.replicate n_medium "medium" ++
    List.replicate n_high "high"

/-- `RowwiseMissingness.create_mask_from_ld` (lines 120–201):
per-sample tier rates via `np.random.uniform(a,b) = a + (b-a)*u`,
missing-entry injection with code `-9`, per-sample missingness percentages,
and the CV-based MAR/MNAR pattern (`cv > 1` iff `var > mean²` with positive
mean, avoiding the square root). -/
def create_mask_from_ld (high_missingness_threshold : ℚ) (rng : RowwiseRng)
    (n_samples : ℕ) (lines : List String) : List RowwiseRow :=
  let snp_list := sortedUnique (lines.flatMap lineKeys)
  let nSnps := snp_list.length
  let ids := sample_ids n_samples
  let cats := rng.shuffleCats (sample_categories n_samples)
  let rates := (List.range n_samples).map (fun i =>
    let c := cats.getD i ""
    if c = "low" then (1/10 : ℚ) * rng.uniformDraw i
    else if c = "medium" then 1/10 + (3/10 - 1/10) * rng.uniformDraw i
    else 3/10 + (6/10 - 3/10) * rng.uniformDraw i)
  let missing_counts := (List.range n_samples).map (fun i =>
    let n_to_mask := pyIntTrunc ((nSnps : ℚ) * rates.getD i 0)
    let idxs := if 0 < n_to_mask then rng.pickIdx i nSnps n_to_mask else []
    ((List.range nSnps).map (fun j => if j ∈ idxs then (-9 : ℤ) else rng.geno i j)).countP
      (fun z => z == -9))
  let pcts := (List.range n_samples).map (fun i =>
    ((missing_counts.getD i 0 : ℚ) / (nSnps : ℚ)) * 100)
  let m := listMean pcts
  let v := listVar pcts
  let pattern := if 0 < m ∧ m ^ 2 < v then "MNAR" else "MAR"
  (List.range n_samples).map (fun i =>
    let pct := pcts.getD i 0
    ⟨ids.getD i "", nSnps, missing_counts.getD i 0, pct, cats.getD i "",
      decide (high_missingness_threshold * 100 ≤ pct), pattern⟩)

end RowwiseMissingness

/-! ## Concrete demonstration inputs -/

/-- A retained edge line (R² 0.9). -/
def demoLine : String := "1 100 rs1 1 200 rs2 0.9"

/-- The same undirected pair in the opposite orientation. -/
def demoLineRev : String := "1 200 rs2 1 100 rs1 0.9"

/-- A below-threshold line (R² 0.5 against threshold 0.8). -/
def demoLineLow : String := "1 100 rs1 1 200 rs2 0.5"

/-- A line whose R² field `.9` parses under Python `float` but fails the
graph builder's `^\d+\.?\d*$` regex. -/
def demoLineDot : String := "1 100 rs1 1 200 rs2 .9"

/-- A well-formed line whose R² field `abc` is not parseable as a float at
all: the graph builder's strict column cast aborts on it. -/
def demoLineBad : String := "1 100 rs1 1 200 rs2 abc"

/-- Deterministic stand-in for `np.random.choice(pool, m, replace=False)`
used to instantiate oracle parameters in witnesses: the first `m` elements. -/
def takePick {α : Type} : PickFn α := fun pool m => pool.take m

/-- Index variant of `takePick` for `pickIdx`-style oracles. -/
def takePickIdx : ℕ → ℕ → ℕ → List ℕ := fun _ n m => (List.range n).take m

theorem wellFormedLine_false_iff (parts : List String) :
    wellFormedLine parts = false ↔ parts.length < 7 ∨ field parts 6 = "R2" := by
  unfold wellFormedLine
  by_cases h : 7 ≤ parts.length <;> by_cases h2 : field parts 6 = "R2" <;>
    simp [h, h2] <;> omega

theorem gbKeep_true_iff (θ : ℚ) (l : String) :
    gbKeep θ l = true ↔
      wellFormedLine (pySplit l) = true ∧
      matchesR2Regex (field (pySplit l) 6) = true ∧
      ∃ v, pyFloat (field (pySplit l) 6) = some v ∧ θ ≤ v := by
  simp only [gbKeep]
  cases hv : pyFloat (field (pySplit l) 6) with
  | none => simp
  | some v => by_cases hθ : θ ≤ v <;> simp [hθ, and_assoc]

/-- C2 (amended): every retained edge of the k-nearest/MAF reader satisfies
`r2 ≥ threshold`, and a line is dropped there exactly when it is short, a
header, unparsable by `float`, or below threshold. For the graph builder:
in a completing run every kept row matches the regex `^\d+\.?\d*$` and has
value at least the threshold; a well-formed row whose R² is not
float-parseable is never merely dropped — the strict column cast aborts the
whole build on it; and in a completing run a line is dropped exactly when
it is short, a header, regex-failing, or below threshold — so "parseable"
means regex-matching there, not `float`-parseable. -/
theorem line_filter_threshold (θ : ℚ) (line : String) (lines : List String) :
    (∀ e, parseEdge θ line = some e → θ ≤ e.2.2) ∧
    (knnKeep θ line = false ↔
      (pySplit line).length < 7 ∨ field (pySplit line) 6 = "R2" ∨
      pyFloat (field (pySplit line) 6) = none ∨
      ∃ v, pyFloat (field (pySplit line) 6) = some v ∧ v < θ) ∧
    (∀ kept, gbFilter θ lines = .ok kept → ∀ l ∈ kept,
      matchesR2Regex (field (pySplit l) 6) = true ∧
      ∃ v, pyFloat (field (pySplit l) 6) = some v ∧ θ ≤ v) ∧
    (line ∈ lines → wellFormedLine (pySplit line) = true →
      pyFloat (field (pySplit line) 6) = none →
      ∀ kept, gbFilter θ lines ≠ .ok kept) ∧
    (∀ kept, gbFilter θ lines = .ok kept → line ∈ lines →
      (line ∉ kept ↔
        (pySplit line).length < 7 ∨ field (pySplit line) 6 = "R2" ∨
        matchesR2Regex (field (pySplit line) 6) = false ∨
        ∃ v, pyFloat (field (pySplit line) 6) = some v ∧ v < θ)) := by
  refine ⟨?_, ?_, ?_, ?_, ?_⟩
  · intro e he
    by_cases hwf : wellFormedLine (pySplit line) = true
    · cases hv : pyFloat (field (pySplit line) 6) with
      | none => simp [parseEdge, hwf, hv] at he
      | some v =>
        by_cases hθ : θ ≤ v
        · simp only [parseEdge, hwf, hv, if_true, if_pos hθ, Option.some.injEq] at he
          rw [← he]
          exact hθ
        · simp [parseEdge, hwf, hv, hθ] at he
    · have hwf' : wellFormedLine (pySplit line) = false := by
        revert hwf; cases wellFormedLine (pySplit line) <;> simp
      simp [parseEdge, hwf'] at he
  · by_cases hwf : wellFormedLine (pySplit line) = true
    · obtain ⟨hlen, hhdr⟩ : 7 ≤ (pySplit line).length ∧ field (pySplit line) 6 ≠ "R2" := by
        simpa [wellFormedLine] using hwf
      cases hv : pyFloat (field (pySplit line) 6) with
      | none => simp [knnKeep, parseEdge, hwf, hv]
      | some v =>
        by_cases hθ : θ ≤ v
        · constructor
          · intro hk
            simp [knnKeep, parseEdge, hwf, hv, hθ] at hk
          · rintro (h | h | h | ⟨w, hw, hlt⟩)
            · omega
            · exact absurd h hhdr
            · exact Option.noConfusion h
            · obtain rfl := Option.some.inj hw
              exact absurd hθ (not_le.mpr hlt)
        · constructor
          · intro _
            exact Or.inr (Or.inr (Or.inr ⟨v, rfl, not_le.mp hθ⟩))
          · intro _
            simp [knnKeep, parseEdge, hwf, hv, hθ]
    · have hwf' : wellFormedLine (pySplit line) = false := by
        revert hwf; cases wellFormedLine (pySplit line) <;> simp
      constructor
      · intro _
        rcases (wellFormedLine_false_iff (pySplit line)).mp hwf' with h | h
        · exact Or.inl h
        · exact Or.inr (Or.inl h)
      · intro _
        simp [knnKeep, parseEdge, hwf']
  · intro kept hk l hl
    simp only [gbFilter] at hk
    split at hk
    · obtain rfl := Except.ok.inj hk
      obtain ⟨hrow, hgb⟩ := List.mem_filter.mp hl
      obtain ⟨hwfl, hreg, v, hv, hθv⟩ := (gbKeep_true_iff θ l).mp hgb
      exact ⟨hreg, v, hv, hθv⟩
    · exact Except.noConfusion hk
  · intro hmem hwfl hnone kept hk
    simp only [gbFilter] at hk
    split at hk
    · rename_i hall
      have hs := List.all_eq_true.mp hall line (List.mem_filter.mpr ⟨hmem, hwfl⟩)
      simp [hnone] at hs
    · exact Except.noConfusion hk
  · intro kept hk hmem
    simp only [gbFilter] at hk
    split at hk
    · rename_i hall
      obtain rfl := Except.ok.inj hk
      constructor
      · intro hnk
        by_cases hwfl : wellFormedLine (pySplit line) = true
        · have hrow : line ∈ lines.filter (fun l => wellFormedLine (pySplit l)) :=
            List.mem_filter.mpr ⟨hmem, hwfl⟩
          have hgb : ¬ (gbKeep θ line = true) := fun hg =>
            hnk (List.mem_filter.mpr ⟨hrow, hg⟩)
          have hs : (pyFloat (field (pySplit line) 6)).isSome = true := by
            have := List.all_eq_true.mp hall line hrow
            simpa using this
          obtain ⟨v, hv⟩ := Option.isSome_iff_exists.mp hs
          by_cases hreg : matchesR2Regex (field (pySplit line) 6) = true
          · refine Or.inr (Or.inr (Or.inr ⟨v, hv, ?_⟩))
            by_contra hge
            exact hgb ((gbKeep_true_iff θ line).mpr
              ⟨hwfl, hreg, v, hv, not_lt.mp hge⟩)
          · refine Or.inr (Or.inr (Or.inl ?_))
            revert hreg; cases matchesR2Regex (field (pySplit line) 6) <;> simp
        · have hwf' : wellFormedLine (pySplit line) = false := by
            revert hwfl; cases wellFormedLine (pySplit line) <;> simp
          rcases (wellFormedLine_false_iff (pySplit line)).mp hwf' with h | h
          · exact Or.inl h
          · exact Or.inr (Or.inl h)
      · intro h hin
        obtain ⟨hrow, hgb⟩ := List.mem_filter.mp hin
        obtain ⟨hwfl, hreg, w, hw, hθw⟩ := (gbKeep_true_iff θ line).mp hgb
        obtain ⟨hlen, hhdr⟩ : 7 ≤ (pySplit line).length ∧ field (pySplit line) 6 ≠ "R2" := by
          simpa [wellFormedLine] using hwfl
        rcases h with h | h | h | ⟨v, hv, hlt⟩
        · omega
        · exact hhdr h
        · rw [hreg] at h; cases h
        · rw [hw] at hv
          obtain rfl := Option.some.inj hv
          exact absurd hθw (not_le.mpr hlt)
    · exact Except.noConfusion hk

/-! ## Concrete parser evaluations -/

theorem pyFloat_09 : pyFloat "0.9" = some (9/10) := by
  unfold pyFloat
  simp only [show ("0.9" : String).data = ['0', '.', '9'] from rfl]
  simp +decide only [parseUnsignedFloat, parseMantissaChars, allDigits, isDigitChar,
    digitsVal, digitVal, List.takeWhile, List.foldl, List.isEmpty, List.drop, List.tail,
    List.length, List.all]
  norm_num [show '9'.toNat - '0'.toNat = 9 from by decide]

theorem pyFloat_05 : pyFloat "0.5" = some (1/2) := by
  unfold pyFloat
  simp only [show ("0.5" : String).data = ['0', '.', '5'] from rfl]
  simp +decide only [parseUnsignedFloat, parseMantissaChars, allDigits, isDigitChar,
    digitsVal, digitVal, List.takeWhile, List.foldl, List.isEmpty, List.drop, List.tail,
    List.length, List.all]
  norm_num [show '5'.toNat - '0'.toNat = 5 from by decide]

theorem pyFloat_dot9 : pyFloat ".9" = some (9/10) := by
  unfold pyFloat
  simp only [show (".9" : String).data = ['.', '9'] from rfl]
  simp +decide only [parseUnsignedFloat, parseMantissaChars, allDigits, isDigitChar,
    digitsVal, digitVal, List.takeWhile, List.foldl, List.isEmpty, List.drop, List.tail,
    List.length, List.all]
  norm_num [show '9'.toNat - '0'.toNat = 9 from by decide]

theorem parseEdge_demoLine :
    parseEdge (4/5) demoLine = some ("1_100", "1_200", 9/10) := by
  simp only [parseEdge,
    show pySplit demoLine = ["1", "100", "rs1", "1", "200", "rs2", "0.9"] from by decide,
    show wellFormedLine ["1", "100", "rs1", "1", "200", "rs2", "0.9"] = true from by decide,
    show field ["1", "100", "rs1", "1", "200", "rs2", "0.9"] 6 = "0.9" from by decide,
    pyFloat_09, if_true]
  rw [if_pos (by norm_num)]
  simp +decide [snpKey, field]

theorem parseEdge_demoLineRev :
    parseEdge (4/5) demoLineRev = some ("1_200", "1_100", 9/10) := by
  simp only [parseEdge,
    show pySplit demoLineRev = ["1", "200", "rs2", "1", "100", "rs1", "0.9"] from by decide,
    show wellFormedLine ["1", "200", "rs2", "1", "100", "rs1", "0.9"] = true from by decide,
    show field ["1", "200", "rs2", "1", "100", "rs1", "0.9"] 6 = "0.9" from by decide,
    pyFloat_09, if_true]
  rw [if_pos (by norm_num)]
  simp +decide [snpKey, field]

theorem parseEdge_demoLineLow : parseEdge (4/5) demoLineLow = none := by
  simp only [parseEdge,
    show pySplit demoLineLow = ["1", "100", "rs1", "1", "200", "rs2", "0.5"] from by decide,
    show wellFormedLine ["1", "100", "rs1", "1", "200", "rs2", "0.5"] = true from by decide,
    show field ["1", "100", "rs1", "1", "200", "rs2", "0.5"] 6 = "0.5" from by decide,
    pyFloat_05, if_true]
  rw [if_neg (by norm_num)]

/-- C2 counterexample: the line `1 100 rs1 1 200 rs2 .9` has seven fields, is
no header, and its R² field `.9` parses (under Python `float` and the polars
cast alike) to `0.9 ≥ 0.8`, yet a completing graph-builder run drops it (the
regex `^\d+\.?\d*$` requires a digit before the dot, so the mask is false
while the cast succeeds) while the k-nearest filter keeps it. -/
theorem graph_builder_drops_parseable_line :
    (pySplit demoLineDot).length = 7 ∧
    field (pySplit demoLineDot) 6 = ".9" ∧
    pyFloat ".9" = some (9/10) ∧
    ((4:ℚ)/5 ≤ 9/10) ∧
    gbFilter (4/5) [demoLineDot] = .ok [] ∧
    knnKeep (4/5) demoLineDot = true := by
  refine ⟨by decide, by decide, pyFloat_dot9, by norm_num, ?_, ?_⟩
  · have hcast : (pyFloat (field (pySplit demoLineDot) 6)).isSome = true := by
      rw [show field (pySplit demoLineDot) 6 = ".9" from by decide, pyFloat_dot9]
      rfl
    have hgb : gbKeep (4/5) demoLineDot = false := by decide
    simp only [gbFilter,
      show [demoLineDot].filter (fun l => wellFormedLine (pySplit l)) = [demoLineDot]
        from by decide]
    rw [if_pos (by simp [List.all_cons, hcast])]
    simp [List.filter_cons, hgb]
  · have hp : parseEdge (4/5) demoLineDot = some ("1_100", "1_200", 9/10) := by
      simp only [parseEdge,
        show pySplit demoLineDot = ["1", "100", "rs1", "1", "200", "rs2", ".9"] from by decide,
        show wellFormedLine ["1", "100", "rs1", "1", "200", "rs2", ".9"] = true from by decide,
        show field ["1", "100", "rs1", "1", "200", "rs2", ".9"] 6 = ".9" from by decide,
        pyFloat_dot9, if_true]
      rw [if_pos (by norm_num)]
      simp +decide [snpKey, field]
    simp [knnKeep, hp]

/-- C2 witness: at the concrete retained line the k-nearest filter's edge
satisfies the threshold bound, and at a well-formed line with unparsable R²
the graph builder aborts rather than returning a filtered batch. -/
theorem line_filter_threshold_witness :
    parseEdge (4/5) demoLine = some ("1_100", "1_200", 9/10) ∧
    (4:ℚ)/5 ≤ ("1_100", "1_200", (9:ℚ)/10).2.2 ∧
    demoLineBad ∈ [demoLineBad] ∧
    wellFormedLine (pySplit demoLineBad) = true ∧
    pyFloat (field (pySplit demoLineBad) 6) = none ∧
    gbFilter (4/5) [demoLineBad] ≠ .ok [] :=
  ⟨parseEdge_demoLine,
    (line_filter_threshold (4/5) demoLine [demoLineBad]).1 _ parseEdge_demoLine,
    by simp, by decide, by decide,
    (line_filter_threshold (4/5) demoLineBad [demoLineBad]).2.2.2.1
      (by simp) (by decide) (by decide) []⟩

/-- C3: every edge record `(A, B, r2)` that passes the threshold filter ends
up, after construction and sorting, with `(B, r2)` in `A`'s neighbor list and
`(A, r2)` in `B`'s. -/
theorem neighbor_graph_symmetry (θ : ℚ) (lines : List String) (a b : String)
    (v : ℚ) (hmem : ∃ line ∈ lines, parseEdge θ line = some (a, b, v))
    (hab : a ≠ b) :
    (b, v) ∈ snp_neighbors θ lines a ∧ (a, v) ∈ snp_neighbors θ lines b := by
  obtain ⟨line, hline, hparse⟩ := hmem
  have he : ((a, b, v) : String × String × ℚ) ∈ knnEdges θ lines :=
    List.mem_filterMap.mpr ⟨line, hline, hparse⟩
  have h := buildNeighborGraph_mem he
  exact ⟨mem_sortNeighbors.mpr h.1, mem_sortNeighbors.mpr h.2⟩

/-- C3 witness at the concrete one-line input. -/
theorem neighbor_graph_symmetry_witness :
    (∃ line ∈ [demoLine], parseEdge (4/5) line = some ("1_100", "1_200", 9/10)) ∧
    "1_100" ≠ "1_200" ∧
    (("1_200", (9:ℚ)/10) ∈ snp_neighbors (4/5) [demoLine] "1_100" ∧
      ("1_100", (9:ℚ)/10) ∈ snp_neighbors (4/5) [demoLine] "1_200") :=
  ⟨⟨demoLine, by simp, parseEdge_demoLine⟩, by decide,
    neighbor_graph_symmetry (4/5) [demoLine] "1_100" "1_200" (9/10)
      ⟨demoLine, by simp, parseEdge_demoLine⟩ (by decide)⟩

/-! ## C8: duplicate orientations in the neighbor graph -/

theorem knnEdges_demo :
    knnEdges (4/5) [demoLine] = [("1_100", "1_200", 9/10)] := by
  simp [knnEdges, parseEdge_demoLine]

theorem knnEdges_demoPair :
    knnEdges (4/5) [demoLine, demoLineRev]
      = [("1_100", "1_200", 9/10), ("1_200", "1_100", 9/10)] := by
  simp [knnEdges, parseEdge_demoLine, parseEdge_demoLineRev]

/-- C8 counterexample: feeding both orientations `(A,B,0.9)` and `(B,A,0.9)`
puts `B` twice into `A`'s neighbor list — the "at most once" claim fails, and
the duplicate does occupy a top-k slot. -/
theorem neighbor_duplicate_orientation_cex :
    ((snp_neighbors (4/5) [demoLine, demoLineRev]) "1_100").countP
        (fun q => q.1 == "1_200") = 2 ∧
    ¬ (((snp_neighbors (4/5) [demoLine, demoLineRev]) "1_100").countP
        (fun q => q.1 == "1_200") ≤ 1) := by
  have h := snp_neighbors_count (4/5) [demoLine, demoLineRev]
    (a := "1_100") (b := "1_200") (by decide)
  rw [knnEdges_demoPair] at h
  have hc : ([("1_100", "1_200", (9:ℚ)/10), ("1_200", "1_100", 9/10)]).countP
      (fun e => (e.1 == "1_100" && e.2.1 == "1_200")
        || (e.1 == "1_200" && e.2.1 == "1_100")) = 2 := by
    simp [List.countP_cons]
  rw [hc] at h
  exact ⟨h, by omega⟩

/-- C8 (amended): for distinct keys `A ≠ B`, the multiplicity of `B` in `A`'s
final neighbor list equals the number of retained input lines recording the
pair in either orientation — opposite orientations are inserted separately
and are not merged into one undirected edge. -/
theorem neighbor_orientation_multiplicity (θ : ℚ) (lines : List String)
    {a b : String} (hab : a ≠ b) :
    ((snp_neighbors θ lines) a).countP (fun q => q.1 == b)
      = (knnEdges θ lines).countP (fun e =>
          (e.1 == a && e.2.1 == b) || (e.1 == b && e.2.1 == a)) :=
  snp_neighbors_count θ lines hab

/-- C8 witness at the concrete two-line input. -/
theorem neighbor_orientation_multiplicity_witness :
    ("1_100" : String) ≠ "1_200" ∧
    ((snp_neighbors (4/5) [demoLine, demoLineRev]) "1_100").countP
        (fun q => q.1 == "1_200")
      = (knnEdges (4/5) [demoLine, demoLineRev]).countP (fun e =>
          (e.1 == "1_100" && e.2.1 == "1_200")
            || (e.1 == "1_200" && e.2.1 == "1_100")) :=
  ⟨by decide,
    neighbor_orientation_multiplicity (4/5) [demoLine, demoLineRev] (by decide)⟩

/-! ## C4: descending order, stable ties and top-k selection -/

theorem foldl_insertEdge_untouched (edges : List (String × String × ℚ))
    (g : NeighborMap) (s : String)
    (h : ∀ e ∈ edges, e.1 ≠ s ∧ e.2.1 ≠ s) :
    (edges.foldl insertEdge g) s = g s := by
  induction edges generalizing g with
  | nil => rfl
  | cons e es ih =>
    have he := h e (List.mem_cons_self e es)
    have h1 : s ≠ e.1 := fun hq => he.1 hq.symm
    have h2 : s ≠ e.2.1 := fun hq => he.2 hq.symm
    have hstep : insertEdge g e s = g s := by
      unfold insertEdge appendNeighbor
      simp [h1, h2]
    simp only [List.foldl_cons]
    rw [ih (insertEdge g e) (fun e' he' => h e' (List.mem_cons_of_mem e he')), hstep]

theorem mem_masked_set_aux (graph : NeighborMap) (k : ℕ) :
    ∀ (seeds : List String) (acc : List String) (x : String),
      x ∈ seeds.foldl (fun acc seed =>
          (acc ++ [seed]) ++ ((graph seed).take k).map Prod.fst) acc
        ↔ x ∈ acc ∨ x ∈ seeds ∨
            ∃ s ∈ seeds, x ∈ ((graph s).take k).map Prod.fst := by
  intro seeds
  induction seeds with
  | nil => simp
  | cons s seeds ih =>
    intro acc x
    simp only [List.foldl_cons]
    rw [ih]
    simp only [List.mem_append, List.mem_cons, List.not_mem_nil, or_false]
    constructor
    · rintro (((h | h) | h) | h | ⟨t, ht, hx⟩)
      · exact Or.inl h
      · exact Or.inr (Or.inl (Or.inl h))
      · exact Or.inr (Or.inr ⟨s, Or.inl rfl, h⟩)
      · exact Or.inr (Or.inl (Or.inr h))
      · exact Or.inr (Or.inr ⟨t, Or.inr ht, hx⟩)
    · rintro (h | (h | h) | ⟨t, rfl | ht, hx⟩)
      · exact Or.inl (Or.inl (Or.inl h))
      · exact Or.inl (Or.inl (Or.inr h))
      · exact Or.inr (Or.inl h)
      · exact Or.inl (Or.inr hx)
      · exact Or.inr (Or.inr ⟨t, ht, hx⟩)

/-- C4: after the sorting pass (i) every neighbor list is non-increasing in
R², (ii) entries tied at one R² value keep their insertion order (the sort is
stable), (iii) a seed's sorted prefix has length `min k (list length)`,
(iv) the masked set consists exactly of the seeds plus, per seed, the keys of
its first `min k len` sorted neighbors, and (v) a variant on no retained edge
has an empty neighbor list, hence contributes zero neighbors. -/
theorem knn_topk_selection (θ : ℚ) (lines : List String) (k : ℕ)
    (seeds : List String) :
    (∀ s, ((snp_neighbors θ lines) s).Pairwise (fun p q => q.2 ≤ p.2)) ∧
    (∀ s c, ((snp_neighbors θ lines) s).filter (fun q => q.2 == c)
        = (buildNeighborGraph (knnEdges θ lines) s).filter (fun q => q.2 == c)) ∧
    (∀ s, (((snp_neighbors θ lines) s).take k).length
        = min k ((snp_neighbors θ lines) s).length) ∧
    (∀ x, x ∈ KNearestSNPMasking.masked_set (snp_neighbors θ lines) seeds k
        ↔ x ∈ seeds ∨
          ∃ s ∈ seeds, x ∈ (((snp_neighbors θ lines) s).take k).map Prod.fst) ∧
    (∀ s, (∀ e ∈ knnEdges θ lines, e.1 ≠ s ∧ e.2.1 ≠ s) →
      (snp_neighbors θ lines) s = []) := by
  refine ⟨?_, ?_, ?_, ?_, ?_⟩
  · intro s
    exact sortNeighbors_sorted _
  · intro s c
    exact sortNeighbors_stable _ c
  · intro s
    rw [List.length_take]
  · intro x
    have h := mem_masked_set_aux (snp_neighbors θ lines) k seeds [] x
    simpa [KNearestSNPMasking.masked_set] using h
  · intro s hs
    show sortNeighbors (buildNeighborGraph (knnEdges θ lines) s) = []
    rw [buildNeighborGraph, foldl_insertEdge_untouched _ _ _ hs]
    rfl

/-- C4 witness: hypotheses discharged at the concrete input — the key `9_9`
touches no retained edge and its list is empty. -/
theorem knn_topk_selection_witness :
    (∀ e ∈ knnEdges (4/5) [demoLine], e.1 ≠ "9_9" ∧ e.2.1 ≠ "9_9") ∧
    snp_neighbors (4/5) [demoLine] "9_9" = [] := by
  have hhyp : ∀ e ∈ knnEdges (4/5) [demoLine], e.1 ≠ "9_9" ∧ e.2.1 ≠ "9_9" := by
    intro e he
    rw [knnEdges_demo] at he
    rcases List.mem_singleton.mp he with rfl
    exact ⟨by decide, by decide⟩
  exact ⟨hhyp,
    (knn_topk_selection (4/5) [demoLine] 1 ["1_100"]).2.2.2.2 "9_9" hhyp⟩

/-! ## C9: bounds of the simulated MAF values -/

/-- C9: if every Beta emission draw lies in `[0,1]` (the support of
`Beta(1,20)` and `Beta(2,2)`), then every simulated MAF value lies in
`[0, 0.5]`: both emissions are non-negative, and each is capped at `0.5`. -/
theorem simulated_maf_bound (rng : MAFClusterMasking.MafRng) (n : ℕ)
    (hdraw : ∀ i, 0 ≤ rng.betaDraw i ∧ rng.betaDraw i ≤ 1) :
    ∀ m ∈ MAFClusterMasking.simulate_maf rng n, 0 ≤ m ∧ m ≤ 1/2 := by
  intro m hm
  unfold MAFClusterMasking.simulate_maf at hm
  rw [List.mem_mapIdx] at hm
  obtain ⟨i, hi, heq⟩ := hm
  rw [← heq]
  unfold MAFClusterMasking.maf_value
  by_cases hs : (MAFClusterMasking.maf_states rng n)[i] = 0
  · simp only [hs, if_true]
    exact ⟨le_min (hdraw i).1 (by norm_num), min_le_right _ _⟩
  · simp only [hs, if_false]
    exact ⟨le_min (mul_nonneg (hdraw i).1 (by norm_num)) (by norm_num),
      min_le_right _ _⟩

/-- C9 witness: draws constantly `1/2` satisfy the support hypothesis, and
the bound holds for the three simulated values. -/
theorem simulated_maf_bound_witness :
    (∀ i : ℕ, 0 ≤ (MAFClusterMasking.MafRng.mk 0 (fun _ _ => 1) (fun _ => 1/2)).betaDraw i ∧
      (MAFClusterMasking.MafRng.mk 0 (fun _ _ => 1) (fun _ => 1/2)).betaDraw i ≤ 1) ∧
    (∀ m ∈ MAFClusterMasking.simulate_maf
        (MAFClusterMasking.MafRng.mk 0 (fun _ _ => 1) (fun _ => 1/2)) 3,
      0 ≤ m ∧ m ≤ 1/2) :=
  ⟨fun _ => by norm_num,
    simulated_maf_bound _ 3 (fun _ => by norm_num)⟩

/-! ## C6: the distance matrix of `create_ld_clusters` is never built -/

theorem ldRowOfLine_demoLine :
    MAFClusterMasking.ldRowOfLine (4/5) demoLine
      = some ⟨"1", "100", "rs1", "1", "200", "rs2", "0.9"⟩ := by
  simp only [MAFClusterMasking.ldRowOfLine,
    show pySplit demoLine = ["1", "100", "rs1", "1", "200", "rs2", "0.9"] from by decide,
    show wellFormedLine ["1", "100", "rs1", "1", "200", "rs2", "0.9"] = true from by decide,
    show field ["1", "100", "rs1", "1", "200", "rs2", "0.9"] 6 = "0.9" from by decide,
    pyFloat_09, if_true]
  rw [if_pos (by norm_num)]
  simp +decide [field]

/-- C6: the matrix-filling loop of `create_ld_clusters` unpacks each polars
row dictionary (7 keys) into two names, so the call raises `ValueError` on
the very first retained edge — the distance matrix `1 - R²` is never
completed or handed to the clustering step. Evaluated on one retained edge
`(1_100, 1_200, 0.9)`. -/
theorem ld_cluster_matrix_unreachable :
    MAFClusterMasking.ld_data (4/5) [demoLine]
      = [⟨"1", "100", "rs1", "1", "200", "rs2", "0.9"⟩] ∧
    MAFClusterMasking.create_ld_clusters 3 (fun _ _ _ => 0)
        (MAFClusterMasking.ld_data (4/5) [demoLine]) ["1_100", "1_200"]
      = .error "too many values to unpack (expected 2)" := by
  have hld : MAFClusterMasking.ld_data (4/5) [demoLine]
      = [⟨"1", "100", "rs1", "1", "200", "rs2", "0.9"⟩] := by
    simp [MAFClusterMasking.ld_data, ldRowOfLine_demoLine]
  exact ⟨hld, by rw [hld]; rfl⟩

/-! ## C7: behavior on inputs where no edge passes the threshold -/

theorem ldRowOfLine_demoLineLow :
    MAFClusterMasking.ldRowOfLine (4/5) demoLineLow = none := by
  simp only [MAFClusterMasking.ldRowOfLine,
    show pySplit demoLineLow = ["1", "100", "rs1", "1", "200", "rs2", "0.5"] from by decide,
    show wellFormedLine ["1", "100", "rs1", "1", "200", "rs2", "0.5"] = true from by decide,
    show field ["1", "100", "rs1", "1", "200", "rs2", "0.5"] 6 = "0.5" from by decide,
    pyFloat_05, if_true]
  rw [if_neg (by norm_num)]

theorem structured_masking_t0 (pick : PickFn ℕ) (s1 s2 : List ℚ) (n : ℕ)
    (ht : pyIntTrunc ((n : ℚ) * (1/10)) = 0) :
    RandomMasking.apply_structured_masking (1/10) pick n s1 s2 = [] := by
  unfold RandomMasking.apply_structured_masking
  rw [ht]
  simp [RandomMasking.primary_indices, RandomMasking.stage2_keep]

/-- C7: on an input whose only line is below the R² threshold, the
column-wise and random strategies complete with zero masked entities, but
both threshold-driven strategies raise: k-nearest collects no keys, so its
masking-rate report divides `len(masked_snps)` by `len(snp_list) = 0`
(ZeroDivisionError, after the empty table is written); and MAF+cluster's
cluster step requests `max(2, 0//10) = 2` clusters from 0 samples (and the
later `np.random.choice` of `max(1, ...)` clusters from an empty list would
raise too). -/
theorem empty_threshold_strategies :
    (ColumnwiseMissingness.create_mask_from_ld (1/10) takePick [demoLineLow]).countP
        (fun r => r.masked) = 0 ∧
    (RandomMasking.create_mask_from_ld (1/10) (fun _ _ => 0) takePick [demoLineLow]).map
        (fun rows => rows.countP (fun r => r.masked)) = Except.ok 0 ∧
    KNearestSNPMasking.create_mask_from_ld 5 (1/10) (4/5) takePick [demoLineLow]
      = .error "ZeroDivisionError: division by zero" ∧
    MAFClusterMasking.create_mask_from_ld (1/20) (1/10) (4/5) 3
        ⟨0, fun _ _ => 0, fun _ => 0⟩ (fun _ _ _ => 0) takePick takePick [demoLineLow]
      = .error "Cannot extract more clusters than samples" := by
  have hkeys : sortedUnique ([demoLineLow].flatMap lineKeys) = ["1_100", "1_200"] := by
    decide
  have ht : pyIntTrunc (((["1_100", "1_200"] : List String).length : ℚ) * (1/10)) = 0 := by
    norm_num [pyIntTrunc]
  have hedgesLow : knnEdges (4/5) [demoLineLow] = [] := by
    simp [knnEdges, parseEdge_demoLineLow]
  have hldLow : MAFClusterMasking.ld_data (4/5) [demoLineLow] = [] := by
    simp [MAFClusterMasking.ld_data, ldRowOfLine_demoLineLow]
  refine ⟨?_, ?_, ?_, ?_⟩
  · simp only [ColumnwiseMissingness.create_mask_from_ld, hkeys, ht]
    decide
  · have hq : RandomMasking.quantify_masking_strength ["1_100", "1_200"] [] = some 0 := by
      decide
    simp only [RandomMasking.create_mask_from_ld, hkeys,
      structured_masking_t0 takePick _ _ _ ht, hq]
    rfl
  · simp only [KNearestSNPMasking.create_mask_from_ld, KNearestSNPMasking.knnKeys,
      hedgesLow]
    rfl
  · simp only [MAFClusterMasking.create_mask_from_ld, KNearestSNPMasking.knnKeys,
      hedgesLow, hldLow]
    rfl

/-! ## C5: the three stages of the random multi-stage mask -/

theorem filter_not_mem_length {n : ℕ} {kept : List ℕ} (hnd : kept.Nodup)
    (hsub : ∀ x ∈ kept, x < n) :
    ((List.range n).filter (fun i => decide (i ∉ kept))).length
      = n - kept.length := by
  have hperm : ((List.range n).filter (fun i => decide (i ∈ kept))).Perm kept := by
    rw [List.perm_ext_iff_of_nodup ((List.nodup_range n).filter _) hnd]
    intro a
    simp only [List.mem_filter, List.mem_range, decide_eq_true_iff]
    exact ⟨fun h => h.2, fun h => ⟨hsub a h, h⟩⟩
  have hsplit := List.length_eq_countP_add_countP
    (fun i => decide (i ∈ kept)) (List.range n)
  rw [List.length_range, List.countP_eq_length_filter,
    List.countP_eq_length_filter] at hsplit
  have hcong : ((List.range n).filter
        (fun a => decide (¬ (fun i => decide (i ∈ kept)) a = true)))
      = (List.range n).filter (fun i => decide (i ∉ kept)) :=
    List.filter_congr (fun x _ => by simp)
  rw [hcong, hperm.length_eq] at hsplit
  omega

theorem argsortAsc_nodup (s1 : List ℚ) : (RandomMasking.argsortAsc s1).Nodup :=
  ((perm_sortStable _ _).nodup_iff).mpr (List.nodup_range _)

theorem primary_indices_nodup (s1 : List ℚ) (t : ℕ) :
    (RandomMasking.primary_indices s1 t).Nodup :=
  (List.take_sublist t _).nodup (argsortAsc_nodup s1)

theorem primary_indices_lt (s1 : List ℚ) (t : ℕ) {i : ℕ}
    (hi : i ∈ RandomMasking.primary_indices s1 t) : i < s1.length := by
  have h1 : i ∈ RandomMasking.argsortAsc s1 :=
    (List.take_sublist t _).mem hi
  exact List.mem_range.mp ((perm_sortStable _ _).mem_iff.mp h1)

theorem stage2_keep_nodup (s1 s2 : List ℚ) (t : ℕ) :
    (RandomMasking.stage2_keep (RandomMasking.primary_indices s1 t) s2).Nodup :=
  (primary_indices_nodup s1 t).filter _

theorem stage2_keep_subset (s1 s2 : List ℚ) (t : ℕ) {x : ℕ}
    (hx : x ∈ RandomMasking.stage2_keep (RandomMasking.primary_indices s1 t) s2) :
    x ∈ RandomMasking.primary_indices s1 t :=
  (List.mem_filter.mp hx).1

theorem stage2_keep_length_le (s1 s2 : List ℚ) (t : ℕ) :
    (RandomMasking.stage2_keep (RandomMasking.primary_indices s1 t) s2).length ≤ t := by
  have h1 := List.length_filter_le
    (fun idx => decide ((3 : ℚ)/10 <
      (RandomMasking.secondary_selection (RandomMasking.primary_indices s1 t) s2).getD
        ((RandomMasking.primary_indices s1 t).indexOf idx) 0))
    (RandomMasking.primary_indices s1 t)
  have h2 : (RandomMasking.primary_indices s1 t).length ≤ t := by
    unfold RandomMasking.primary_indices
    rw [List.length_take]
    omega
  exact le_trans h1 h2

/-- C5: in `apply_structured_masking` with `t = int(n * missing_rate)`:
(i) every stage-1 index has a stage-1 score no larger than any unselected
index; (ii) the stage-2 `np.where` positional lookup collapses to direct
indexing, so exactly the candidates with stage-2 score `> 0.3` survive;
(iii) every survivor is masked; (iv) every masked index is a survivor or
drawn from the not-yet-selected pool below `n`; (v) whenever `t ≤ n`, the
final masked set has exactly `t` distinct elements. -/
theorem random_multistage_selection (missing_rate : ℚ) (pick : PickFn ℕ)
    (n : ℕ) (s1 s2 : List ℚ) (hs1 : s1.length = n)
    (hpick : ∀ pool m, pool.Nodup → m ≤ pool.length →
      (pick pool m).length = m ∧ (pick pool m).Nodup ∧
        ∀ x ∈ pick pool m, x ∈ pool) :
    (∀ i ∈ RandomMasking.primary_indices s1 (pyIntTrunc ((n : ℚ) * missing_rate)),
      ∀ j < n, j ∉ RandomMasking.primary_indices s1 (pyIntTrunc ((n : ℚ) * missing_rate)) →
        s1.getD i 0 ≤ s1.getD j 0) ∧
    (∀ t, RandomMasking.stage2_keep (RandomMasking.primary_indices s1 t) s2
        = (RandomMasking.primary_indices s1 t).filter
            (fun idx => decide ((3 : ℚ)/10 < s2.getD idx 0))) ∧
    (∀ x ∈ RandomMasking.stage2_keep
        (RandomMasking.primary_indices s1 (pyIntTrunc ((n : ℚ) * missing_rate))) s2,
      x ∈ RandomMasking.apply_structured_masking missing_rate pick n s1 s2) ∧
    (∀ x ∈ RandomMasking.apply_structured_masking missing_rate pick n s1 s2,
      x ∈ RandomMasking.stage2_keep
          (RandomMasking.primary_indices s1 (pyIntTrunc ((n : ℚ) * missing_rate))) s2
        ∨ (x < n ∧ x ∉ RandomMasking.stage2_keep
            (RandomMasking.primary_indices s1 (pyIntTrunc ((n : ℚ) * missing_rate))) s2)) ∧
    (pyIntTrunc ((n : ℚ) * missing_rate) ≤ n →
      (RandomMasking.apply_structured_masking missing_rate pick n s1 s2).Nodup ∧
      (RandomMasking.apply_structured_masking missing_rate pick n s1 s2).length
        = pyIntTrunc ((n : ℚ) * missing_rate)) := by
  have hknd := stage2_keep_nodup s1 s2 (pyIntTrunc ((n : ℚ) * missing_rate))
  have hksub : ∀ x ∈ RandomMasking.stage2_keep
      (RandomMasking.primary_indices s1 (pyIntTrunc ((n : ℚ) * missing_rate))) s2,
      x < n := fun x hx =>
    hs1 ▸ primary_indices_lt s1 _ (stage2_keep_subset s1 s2 _ hx)
  have hklen := stage2_keep_length_le s1 s2 (pyIntTrunc ((n : ℚ) * missing_rate))
  have hM : RandomMasking.apply_structured_masking missing_rate pick n s1 s2
      = (if 0 < pyIntTrunc ((n : ℚ) * missing_rate) -
            (RandomMasking.stage2_keep
              (RandomMasking.primary_indices s1 (pyIntTrunc ((n : ℚ) * missing_rate))) s2).length
        then
          if ((List.range n).filter (fun i => decide (i ∉
              RandomMasking.stage2_keep
                (RandomMasking.primary_indices s1 (pyIntTrunc ((n : ℚ) * missing_rate))) s2))) ≠ []
          then
            RandomMasking.stage2_keep
                (RandomMasking.primary_indices s1 (pyIntTrunc ((n : ℚ) * missing_rate))) s2 ++
              pick ((List.range n).filter (fun i => decide (i ∉
                  RandomMasking.stage2_keep
                    (RandomMasking.primary_indices s1 (pyIntTrunc ((n : ℚ) * missing_rate))) s2)))
                (min (pyIntTrunc ((n : ℚ) * missing_rate) -
                    (RandomMasking.stage2_keep
                      (RandomMasking.primary_indices s1 (pyIntTrunc ((n : ℚ) * missing_rate))) s2).length)
                  ((List.range n).filter (fun i => decide (i ∉
                      RandomMasking.stage2_keep
                        (RandomMasking.primary_indices s1 (pyIntTrunc ((n : ℚ) * missing_rate))) s2))).length)
          else
            RandomMasking.stage2_keep
              (RandomMasking.primary_indices s1 (pyIntTrunc ((n : ℚ) * missing_rate))) s2
        else
          RandomMasking.stage2_keep
            (RandomMasking.primary_indices s1 (pyIntTrunc ((n : ℚ) * missing_rate))) s2) := rfl
  refine ⟨?_, ?_, ?_, ?_, ?_⟩
  · intro i hi j hjn hjp
    have hsorted := @pairwise_sortStable _
      (fun a b => decide (s1.getD a 0 ≤ s1.getD b 0))
      (fun x y => by
        rcases le_total (s1.getD x 0) (s1.getD y 0) with h | h
        exacts [Or.inl (decide_eq_true h), Or.inr (decide_eq_true h)])
      (fun x y z hxy hyz => by
        simp only [decide_eq_true_iff] at hxy hyz ⊢
        exact hxy.trans hyz)
      (List.range s1.length)
    have hsorted' : (RandomMasking.argsortAsc s1).Pairwise
        (fun a b => decide (s1.getD a 0 ≤ s1.getD b 0) = true) := hsorted
    have hdecomp := List.take_append_drop (pyIntTrunc ((n : ℚ) * missing_rate))
      (RandomMasking.argsortAsc s1)
    rw [← hdecomp, List.pairwise_append] at hsorted'
    have hjmem : j ∈ RandomMasking.argsortAsc s1 :=
      (perm_sortStable _ _).mem_iff.mpr (List.mem_range.mpr (by omega : j < s1.length))
    rw [← hdecomp] at hjmem
    rcases List.mem_append.mp hjmem with hjt | hjd
    · exact absurd hjt hjp
    · have := hsorted'.2.2 i hi j hjd
      simpa using this
  · intro t
    apply List.filter_congr
    intro x hx
    have hidx : (RandomMasking.primary_indices s1 t).indexOf x
        < (RandomMasking.primary_indices s1 t).length :=
      List.indexOf_lt_length.mpr hx
    have hval : (RandomMasking.secondary_selection
          (RandomMasking.primary_indices s1 t) s2).getD
        ((RandomMasking.primary_indices s1 t).indexOf x) 0 = s2.getD x 0 := by
      unfold RandomMasking.secondary_selection
      rw [List.getD_eq_getElem _ _ (by simpa using hidx), List.getElem_map,
        List.getElem_indexOf hidx]
    rw [hval]
  · intro x hx
    rw [hM]
    split
    · split
      · exact List.mem_append_left _ hx
      · exact hx
    · exact hx
  · intro x hx
    rw [hM] at hx
    split at hx
    · split at hx
      · rcases List.mem_append.mp hx with hxk | hxp
        · exact Or.inl hxk
        · have hple : min (pyIntTrunc ((n : ℚ) * missing_rate) -
              (RandomMasking.stage2_keep
                (RandomMasking.primary_indices s1 (pyIntTrunc ((n : ℚ) * missing_rate))) s2).length)
              ((List.range n).filter (fun i => decide (i ∉
                  RandomMasking.stage2_keep
                    (RandomMasking.primary_indices s1 (pyIntTrunc ((n : ℚ) * missing_rate))) s2))).length
              ≤ _ := min_le_right _ _
          have hsub := (hpick _ _ ((List.nodup_range n).filter _) hple).2.2 x hxp
          have := List.mem_filter.mp hsub
          refine Or.inr ⟨List.mem_range.mp this.1, by simpa using this.2⟩
      · exact Or.inl hx
    · exact Or.inl hx
  · intro htn
    rw [hM]
    have hpl := filter_not_mem_length (n := n) hknd hksub
    split
    · rename_i h1
      split
      · rename_i h2
        have hmle : min (pyIntTrunc ((n : ℚ) * missing_rate) -
            (RandomMasking.stage2_keep
              (RandomMasking.primary_indices s1 (pyIntTrunc ((n : ℚ) * missing_rate))) s2).length)
            ((List.range n).filter (fun i => decide (i ∉
                RandomMasking.stage2_keep
                  (RandomMasking.primary_indices s1 (pyIntTrunc ((n : ℚ) * missing_rate))) s2))).length
            ≤ _ := min_le_right _ _
        obtain ⟨hplen, hpnd, hpsub⟩ := hpick _ _ ((List.nodup_range n).filter _) hmle
        refine ⟨List.Nodup.append hknd hpnd ?_, ?_⟩
        · intro a hak hap
          have hmem := List.mem_filter.mp (hpsub a hap)
          simp only [decide_eq_true_iff] at hmem
          exact hmem.2 hak
        · rw [List.length_append, hplen, hpl]
          omega
      · rename_i h2
        exfalso
        have hz : ((List.range n).filter (fun i => decide (i ∉
            RandomMasking.stage2_keep
              (RandomMasking.primary_indices s1 (pyIntTrunc ((n : ℚ) * missing_rate))) s2))).length = 0 := by
          rw [List.length_eq_zero]
          simpa using h2
        omega
    · rename_i h1
      exact ⟨hknd, by omega⟩

theorem takePick_contract : ∀ (pool : List ℕ) m, pool.Nodup → m ≤ pool.length →
    (takePick pool m).length = m ∧ (takePick pool m).Nodup ∧
      ∀ x ∈ takePick pool m, x ∈ pool := by
  intro pool m hnd hm
  refine ⟨?_, (List.take_sublist m pool).nodup hnd,
    fun x hx => (List.take_sublist m pool).mem hx⟩
  unfold takePick
  rw [List.length_take]
  omega

/-- C5 witness: the prefix-choice oracle meets the contract, the scores have
length `n = 2`, `t = int(2 * 0.5) = 1 ≤ 2`, and the final masked set indeed
has exactly one element. -/
theorem random_multistage_selection_witness :
    (([(1 : ℚ), 0]).length = 2) ∧
    (∀ (pool : List ℕ) m, pool.Nodup → m ≤ pool.length →
      (takePick pool m).length = m ∧ (takePick pool m).Nodup ∧
        ∀ x ∈ takePick pool m, x ∈ pool) ∧
    (pyIntTrunc ((2 : ℚ) * (1/2)) ≤ 2) ∧
    ((RandomMasking.apply_structured_masking (1/2) takePick 2 [1, 0] [1, 1]).Nodup ∧
      (RandomMasking.apply_structured_masking (1/2) takePick 2 [1, 0] [1, 1]).length
        = pyIntTrunc ((2 : ℚ) * (1/2))) :=
  ⟨rfl, takePick_contract, by norm_num [pyIntTrunc],
    (random_multistage_selection (1/2) takePick 2 [1, 0] [1, 1] rfl
        takePick_contract).2.2.2.2 (by norm_num [pyIntTrunc])⟩

/-! ## C10: one row per unique key, in ascending string order -/

theorem map_getD_range {α : Type} (l : List α) (d : α) :
    (List.range l.length).map (fun i => l.getD i d) = l := by
  apply List.ext_getElem
  · simp
  · intro i h1 h2
    have hi : i < l.length := by simpa using h2
    simp [List.getD, List.getElem?_eq_getElem hi]

/-- C10 (amended): the column-wise, random and k-nearest tables carry exactly
one row per unique observed key, in strictly ascending Python string order
(so `1_1000` sorts before `1_200`); the k-nearest table is `mask_df`, written
to disk at line 105 (a successful call returns exactly it; when no edge is
retained the call raises after writing, and the written table is empty); the
MAF+cluster row builder emits its rows in the same order whenever it is
reached, but the strategy itself never returns a table (see the unpacking
failure). -/
theorem mask_table_key_order :
    (∀ (rate : ℚ) (pick : PickFn String) (lines : List String),
      (ColumnwiseMissingness.create_mask_from_ld rate pick lines).map (fun r => r.snpId)
          = sortedUnique (lines.flatMap lineKeys) ∧
        ((ColumnwiseMissingness.create_mask_from_ld rate pick lines).map
            (fun r => r.snpId)).Pairwise (fun a b => strLtB a b = true)) ∧
    (∀ (rate : ℚ) (stream : ℕ → ℕ → ℚ) (pick : PickFn ℕ) (lines : List String)
        (rows : List RandomRow),
      RandomMasking.create_mask_from_ld rate stream pick lines = .ok rows →
      rows.map (fun r => r.snpId) = sortedUnique (lines.flatMap lineKeys) ∧
        (rows.map (fun r => r.snpId)).Pairwise (fun a b => strLtB a b = true)) ∧
    (∀ (k : ℕ) (rate θ : ℚ) (pick : PickFn String) (lines : List String),
      (KNearestSNPMasking.mask_df k rate θ pick lines).map (fun r => r.snpId)
          = sortedUnique (KNearestSNPMasking.knnKeys θ lines) ∧
        ((KNearestSNPMasking.mask_df k rate θ pick lines).map
            (fun r => r.snpId)).Pairwise (fun a b => strLtB a b = true) ∧
        ∀ rows, KNearestSNPMasking.create_mask_from_ld k rate θ pick lines = .ok rows →
          rows = KNearestSNPMasking.mask_df k rate θ pick lines) ∧
    (∀ (mafTh θ : ℚ) (lines : List String) (maf_values : List ℚ)
        (masked : List String) (clusters : List (ℕ × List String)),
      (MAFClusterMasking.mafRowsOf mafTh
          (sortedUnique (KNearestSNPMasking.knnKeys θ lines)) maf_values masked
          clusters).map (fun r => r.snpId)
        = sortedUnique (KNearestSNPMasking.knnKeys θ lines)) ∧
    strLtB "1_1000" "1_200" = true := by
  refine ⟨?_, ?_, ?_, ?_, by decide⟩
  · intro rate pick lines
    have hmap : (ColumnwiseMissingness.create_mask_from_ld rate pick lines).map
        (fun r => r.snpId) = sortedUnique (lines.flatMap lineKeys) := by
      simp only [ColumnwiseMissingness.create_mask_from_ld, List.map_map]
      exact List.map_id _
    exact ⟨hmap, hmap ▸ sortedUnique_strict_sorted _⟩
  · intro rate stream pick lines rows h
    simp only [RandomMasking.create_mask_from_ld] at h
    split at h
    · exact absurd h (by simp)
    · have hrows : rows = _ := (Except.ok.inj h).symm
      have hmap : rows.map (fun r => r.snpId)
          = sortedUnique (lines.flatMap lineKeys) := by
        rw [hrows]
        simp only [List.map_map]
        exact map_getD_range (sortedUnique (lines.flatMap lineKeys)) ""
      exact ⟨hmap, hmap ▸ sortedUnique_strict_sorted _⟩
  · intro k rate θ pick lines
    have hmap : (KNearestSNPMasking.mask_df k rate θ pick lines).map
        (fun r => r.snpId) = sortedUnique (KNearestSNPMasking.knnKeys θ lines) := by
      simp only [KNearestSNPMasking.mask_df, List.map_map]
      exact List.map_id _
    refine ⟨hmap, hmap ▸ sortedUnique_strict_sorted _, ?_⟩
    intro rows h
    simp only [KNearestSNPMasking.create_mask_from_ld] at h
    split at h
    · exact Except.noConfusion h
    · exact (Except.ok.inj h).symm
  · intro mafTh θ lines maf_values masked clusters
    simp only [MAFClusterMasking.mafRowsOf, List.map_map]
    exact map_getD_range (sortedUnique (KNearestSNPMasking.knnKeys θ lines)) ""

/-- C10 counterexample: on a retained edge the MAF+cluster strategy returns
an error, not a mask table, so the claim's statement about its output table
fails — no table exists for any input. -/
theorem maf_cluster_emits_no_table :
    MAFClusterMasking.create_mask_from_ld (1/20) (1/10) (4/5) 3
        ⟨0, fun _ _ => 0, fun _ => 0⟩ (fun _ _ _ => 0) takePick takePick [demoLine]
      = .error "too many values to unpack (expected 2)" := by
  have hld : MAFClusterMasking.ld_data (4/5) [demoLine]
      = [⟨"1", "100", "rs1", "1", "200", "rs2", "0.9"⟩] := by
    simp [MAFClusterMasking.ld_data, ldRowOfLine_demoLine]
  simp only [MAFClusterMasking.create_mask_from_ld, hld]
  rfl

/-- C10 witness: a concrete successful random-mask run whose key column is
the sorted unique key list. -/
theorem mask_table_key_order_witness :
    RandomMasking.create_mask_from_ld (1/10) (fun _ _ => 0) takePick [demoLineLow]
      = .ok [⟨"1", "100", "1_100", false, 0, 0, 0, 0⟩,
             ⟨"1", "200", "1_200", false, 0, 0, 0, 0⟩] ∧
    (([⟨"1", "100", "1_100", false, 0, 0, 0, 0⟩,
       ⟨"1", "200", "1_200", false, 0, 0, 0, 0⟩] : List RandomRow).map (fun r => r.snpId)
      = sortedUnique ([demoLineLow].flatMap lineKeys)) := by
  have hkeys : sortedUnique ([demoLineLow].flatMap lineKeys) = ["1_100", "1_200"] := by
    decide
  have ht : pyIntTrunc (((["1_100", "1_200"] : List String).length : ℚ) * (1/10)) = 0 := by
    norm_num [pyIntTrunc]
  have hq : RandomMasking.quantify_masking_strength ["1_100", "1_200"] [] = some 0 := by
    decide
  have hok : RandomMasking.create_mask_from_ld (1/10) (fun _ _ => 0) takePick [demoLineLow]
      = .ok [⟨"1", "100", "1_100", false, 0, 0, 0, 0⟩,
             ⟨"1", "200", "1_200", false, 0, 0, 0, 0⟩] := by
    simp only [RandomMasking.create_mask_from_ld, hkeys,
      structured_masking_t0 takePick _ _ _ ht, hq]
    rfl
  exact ⟨hok,
    (mask_table_key_order.2.1 (1/10) (fun _ _ => 0) takePick [demoLineLow] _ hok).1⟩

/-! ## C1: determinism under a fixed seed -/

/-- C1: every strategy is a pure function of its input lines and of the
draw oracles that the fixed seed determines (`np.random.seed(42)` / `43`
reseed the stream at each call site), so two runs with equal seeds — hence
equal oracle streams — and equal inputs produce identical outputs: the same
rows, values and order. This covers the MAF+cluster strategy as well, whose
`Except` result is the identical error value for both runs. -/
theorem masking_determinism :
    (∀ (rate : ℚ) (p₁ p₂ : PickFn String) (l₁ l₂ : List String),
      p₁ = p₂ → l₁ = l₂ →
      ColumnwiseMissingness.create_mask_from_ld rate p₁ l₁
        = ColumnwiseMissingness.create_mask_from_ld rate p₂ l₂) ∧
    (∀ (rate : ℚ) (s₁ s₂ : ℕ → ℕ → ℚ) (p₁ p₂ : PickFn ℕ) (l₁ l₂ : List String),
      s₁ = s₂ → p₁ = p₂ → l₁ = l₂ →
      RandomMasking.create_mask_from_ld rate s₁ p₁ l₁
        = RandomMasking.create_mask_from_ld rate s₂ p₂ l₂) ∧
    (∀ (k : ℕ) (rate θ : ℚ) (p₁ p₂ : PickFn String) (l₁ l₂ : List String),
      p₁ = p₂ → l₁ = l₂ →
      KNearestSNPMasking.create_mask_from_ld k rate θ p₁ l₁
        = KNearestSNPMasking.create_mask_from_ld k rate θ p₂ l₂) ∧
    (∀ (mafTh rate θ : ℚ) (m : ℕ) (r₁ r₂ : MAFClusterMasking.MafRng)
        (f₁ f₂ : MAFClusterMasking.ClusterFn) (pa₁ pa₂ : PickFn String)
        (pb₁ pb₂ : PickFn ℕ) (l₁ l₂ : List String),
      r₁ = r₂ → f₁ = f₂ → pa₁ = pa₂ → pb₁ = pb₂ → l₁ = l₂ →
      MAFClusterMasking.create_mask_from_ld mafTh rate θ m r₁ f₁ pa₁ pb₁ l₁
        = MAFClusterMasking.create_mask_from_ld mafTh rate θ m r₂ f₂ pa₂ pb₂ l₂) ∧
    (∀ (th : ℚ) (r₁ r₂ : RowwiseRng) (n : ℕ) (l₁ l₂ : List String),
      r₁ = r₂ → l₁ = l₂ →
      RowwiseMissingness.create_mask_from_ld th r₁ n l₁
        = RowwiseMissingness.create_mask_from_ld th r₂ n l₂) := by
  refine ⟨?_, ?_, ?_, ?_, ?_⟩ <;> intros <;> subst_vars <;> rfl

/-- C1 witness: two column-wise runs with the same oracle and input coincide. -/
theorem masking_determinism_witness :
    (takePick : PickFn String) = takePick ∧
    [demoLine] = [demoLine] ∧
    ColumnwiseMissingness.create_mask_from_ld (1/10) takePick [demoLine]
      = ColumnwiseMissingness.create_mask_from_ld (1/10) takePick [demoLine] :=
  ⟨rfl, rfl,
    masking_determinism.1 (1/10) takePick takePick [demoLine] [demoLine] rfl rfl⟩
